import Mathlib

/-!
Verification of the simdjson single-header amalgamation engine
(`singleheader/amalgamate.py`) against its natural-language specification.

The Python source is shallowly embedded: file classification becomes pure
functions on path strings, the recursive amalgamation writer becomes a
fuel-indexed state-passing function over `Except`, and every `assert` in the
source becomes a distinct constructor of the error type `Err`.

Lines of source files are modelled as lists of strings (without trailing
newline, matching the `rstrip` performed by the source).  The repository is
modelled as an insertion-ordered association list, matching Python dict
semantics used by `SimdjsonRepository.files`.
-/

namespace Amalgamate

/-- The two configured search roots of the repository (`RELATIVE_ROOTS`).
The source calls them `src` and `include`; `include` is a Lean keyword so the
second root is named `inc` here. -/
inductive RelativeRoot where
  | src
  | inc
deriving DecidableEq, Repr

/-- `IMPLEMENTATIONS` from the source: the fixed list of hardware variants. -/
def IMPLEMENTATIONS : List String :=
  ["arm64", "fallback", "haswell", "icelake", "ppc64", "westmere"]

def BUILTIN_BEGIN_H : String := "simdjson/builtin/begin.h"

def BUILTIN_END_H : String := "simdjson/builtin/end.h"

def IMPLEMENTATION_DETECTION_H : String := "simdjson/implementation_detection.h"

/-! ### Character-level helpers used for modelling the directive regexes -/

/-- Python `\s` (ASCII range; the source lines are ASCII). -/
def isWs (c : Char) : Bool :=
  c == ' ' || c == '\t' || c == '\n' || c == '\x0d' || c == '\x0b' || c == '\x0c'

/-- Python `\w`: a word character for the `\b` boundary of `re`. -/
def isWordChar (c : Char) : Bool :=
  (('a' ≤ c && c ≤ 'z') || ('A' ≤ c && c ≤ 'Z') || ('0' ≤ c && c ≤ '9') || c == '_')

/-- Strip a literal prefix, or fail. -/
def stripLit : List Char → List Char → Option (List Char)
  | [], cs => some cs
  | _ :: _, [] => none
  | l :: ls, c :: cs => if l == c then stripLit ls cs else none

/-- Drop leading whitespace (Python greedy `\s*` followed by a non-`\s` item). -/
def dropWs : List Char → List Char
  | [] => []
  | c :: cs => if isWs c then dropWs cs else c :: cs

/-- Model of `\s+` followed by a non-whitespace item: require at least one
whitespace character, then drop the rest. -/
def wsPlus : List Char → Option (List Char)
  | [] => none
  | c :: cs => if isWs c then some (dropWs cs) else none

/-- All remaining characters are whitespace (`\s*$`). -/
def allWs (cs : List Char) : Bool :=
  (dropWs cs).isEmpty

/-- Count of leading whitespace characters. -/
def countWs : List Char → Nat
  | [] => 0
  | c :: cs => if isWs c then countWs cs + 1 else 0

/-! ### The directive regexes of `Amalgamator.write_file` -/

/-- Regex `^#ifndef\s+SIMDJSON_AMALGAMATED\s*$` (line 299 of the source). -/
def matchIfndefAmalg (line : String) : Bool :=
  match stripLit "#ifndef".data line.data with
  | none => false
  | some r =>
    match wsPlus r with
    | none => false
    | some r =>
      match stripLit "SIMDJSON_AMALGAMATED".data r with
      | none => false
      | some r => allWs r

/-- Regex `^#endif\s*//\s*SIMDJSON_AMALGAMATED\s*$` (line 306). -/
def matchEndifAmalg (line : String) : Bool :=
  match stripLit "#endif".data line.data with
  | none => false
  | some r =>
    match stripLit "//".data (dropWs r) with
    | none => false
    | some r =>
      match stripLit "SIMDJSON_AMALGAMATED".data (dropWs r) with
      | none => false
      | some r => allWs r

/-- Regex `^#include "([^"]*)"` (lines 311 and 321): note the source requires
exactly one space between `#include` and the opening quote, and allows
arbitrary trailing content after the closing quote. -/
def matchInclude (line : String) : Option String :=
  match stripLit "#include \"".data line.data with
  | none => none
  | some r =>
    let name := r.takeWhile (fun c => c ≠ '"')
    match r.drop name.length with
    | [] => none
    | _ :: _ => some (String.mk name)

/-- Regex `^#define\s+SIMDJSON_IMPLEMENTATION\s+(.+)$` (line 330).  The
captured group follows Python backtracking: the greedy `\s+` gives characters
back for `(.+)` so that a remainder consisting only of whitespace still
matches, capturing its final whitespace character. -/
def matchDefineImpl (line : String) : Option String :=
  match stripLit "#define".data line.data with
  | none => none
  | some r =>
    match wsPlus r with
    | none => none
    | some r =>
      match stripLit "SIMDJSON_IMPLEMENTATION".data r with
      | none => none
      | some rest =>
        let k := countWs rest
        if k == 0 then none
        else
          match rest.drop k with
          | [] => if k ≥ 2 then some (String.mk (rest.drop (k - 1))) else none
          | c :: cs => some (String.mk (c :: cs))

/-- Regex `^#undef\s+SIMDJSON_IMPLEMENTATION\s*$` (line 338). -/
def matchUndefImpl (line : String) : Bool :=
  match stripLit "#undef".data line.data with
  | none => false
  | some r =>
    match wsPlus r with
    | none => false
    | some r =>
      match stripLit "SIMDJSON_IMPLEMENTATION".data r with
      | none => false
      | some r => allWs r

/-- Regex `^#define\s+SIMDJSON_AMALGAMATED\s*$` (line 348). -/
def matchDefineAmalg (line : String) : Bool :=
  match stripLit "#define".data line.data with
  | none => false
  | some r =>
    match wsPlus r with
    | none => false
    | some r =>
      match stripLit "SIMDJSON_AMALGAMATED".data r with
      | none => false
      | some r => allWs r

/-- Regex `^#undef\s+SIMDJSON_AMALGAMATED\s*$` (line 355). -/
def matchUndefAmalg (line : String) : Bool :=
  match stripLit "#undef".data line.data with
  | none => false
  | some r =>
    match wsPlus r with
    | none => false
    | some r =>
      match stripLit "SIMDJSON_AMALGAMATED".data r with
      | none => false
      | some r => allWs r

/-- The variant placeholder token searched for with `\bSIMDJSON_IMPLEMENTATION\b`. -/
def implToken : List Char := "SIMDJSON_IMPLEMENTATION".data

/-- A word-boundary occurrence of `implToken` starts here: the token is a
prefix and the following character (if any) is not a word character. -/
def tokenAt (cs : List Char) : Bool :=
  implToken.isPrefixOf cs &&
    (match cs.drop implToken.length with
     | [] => true
     | c :: _ => !isWordChar c)

/-- Scan for `\bSIMDJSON_IMPLEMENTATION\b`; `prevW` records whether the
previous character is a word character (false at the start of the line). -/
def hasTokenAux : Bool → List Char → Bool
  | _, [] => false
  | prevW, c :: cs =>
    if !prevW && tokenAt (c :: cs) then true
    else hasTokenAux (isWordChar c) cs

/-- Regex search `\bSIMDJSON_IMPLEMENTATION\b` (line 342). -/
def hasImplToken (line : String) : Bool :=
  hasTokenAux false line.data

/-- `re.sub(r'\bSIMDJSON_IMPLEMENTATION\b', repl, line)` (line 345): replace
every word-boundary occurrence, resuming the scan after each match.  The
fuel argument (instantiated with the line length, an upper bound on the
number of scan steps) makes the recursion structural. -/
def substAux (repl : List Char) : Nat → Bool → List Char → List Char
  | _, _, [] => []
  | 0, _, cs => cs
  | n + 1, prevW, c :: cs =>
    if !prevW && tokenAt (c :: cs) then
      repl ++ substAux repl n true ((c :: cs).drop implToken.length)
    else
      c :: substAux repl n (isWordChar c) cs

/-- Textual substitution of the variant placeholder. -/
def substImplToken (line : String) (repl : String) : String :=
  String.mk (substAux repl.data line.data.length false line.data)

/-! ### The path classifier (`SimdjsonFile` pure properties) -/

/-- `os.path.basename` on a namespace-relative path. -/
def filename (p : String) : String :=
  String.mk ((p.data.reverse.takeWhile (fun c => c ≠ '/')).reverse)

/-- `os.path.dirname` on a namespace-relative path (no leading slash occurs). -/
def include_dir (p : String) : String :=
  String.mk (((p.data.reverse.dropWhile (fun c => c ≠ '/')).drop 1).reverse)

/-- `SimdjsonFile.is_generic`. -/
def is_generic (p : String) : Bool :=
  "generic/".data.isPrefixOf p.data || "simdjson/generic/".data.isPrefixOf p.data

/-- One step of `re.search` for `(^|/)(arm64|fallback|...)`: try each variant
name, in order, as a prefix at the current position. -/
def implAt (cs : List Char) : Option String :=
  IMPLEMENTATIONS.find? (fun im => im.data.isPrefixOf cs)

/-- Leftmost search for a variant tag at the start of the path or immediately
after a slash, alternatives tried in declaration order. -/
def implSearch : Bool → List Char → Option String
  | b, [] => if b then implAt [] else none
  | b, c :: cs =>
    if b then
      match implAt (c :: cs) with
      | some im => some im
      | none => implSearch (c == '/') cs
    else implSearch (c == '/') cs

/-- `SimdjsonFile.implementation`: the hardware variant in the path, if any. -/
def implementation (p : String) : Option String :=
  implSearch true p.data

/-- `SimdjsonFile.is_free_dependency_file`. -/
def is_free_dependency_file (p : String) : Bool :=
  filename p == "dependencies.h"

/-- The path of `SimdjsonFile.free_dependency_file`: the designated
dependency-aggregator path, or `none` for files with no governing aggregator.
The registry lookup the source performs on the returned path is modelled at
the call sites (it can fail when the aggregator is missing on disk). -/
def free_dependency_file (p : String) : Option String :=
  if is_free_dependency_file p then none
  else if (implementation p).isSome then
    if include_dir p == "" then some "generic/dependencies.h"
    else if filename p == "ondemand.h" then some "simdjson/generic/ondemand/dependencies.h"
    else some "simdjson/generic/dependencies.h"
  else if is_generic p then some (include_dir p ++ "/dependencies.h")
  else none

/-- `SimdjsonFile.is_free_dependency`, path-level. -/
def is_free_dependency (p : String) : Bool :=
  (free_dependency_file p).isNone

/-- `SimdjsonFile.is_amalgamated`, path-level. -/
def is_amalgamated (p : String) : Bool :=
  !is_free_dependency p

/-- `SimdjsonFile.is_amalgamator` (needs the root the file was found under). -/
def is_amalgamator (root : RelativeRoot) (p : String) : Bool :=
  if (implementation p).isSome then
    root == RelativeRoot.src || include_dir p == "simdjson" ||
      filename p == "ondemand.h" || filename p == "implementation.h"
  else
    filename p == "amalgamated.h"

/-! ### The repository state, filesystem model and error taxonomy -/

/-- The on-disk source tree: a list of (root, path, lines) entries. -/
structure FS where
  files : List (RelativeRoot × String × List String)
deriving DecidableEq, Repr

/-- Content of a file under a given root, if present. -/
def FS.get (fs : FS) (r : RelativeRoot) (p : String) : Option (List String) :=
  (fs.files.find? (fun e => e.1 == r && e.2.1 == p)).map (fun e => e.2.2)

/-- Per-file record: `SimdjsonFile`'s mutable relations.  Files are identified
by their include path (the registry memoizes by path), so relations store
paths.  The `included_from` sets are modelled as duplicate-free lists. -/
structure FileData where
  root : RelativeRoot
  includes : List String
  included_from : List String
  editor_only_includes : List String
  editor_only_included_from : List String
  processed : Option Bool
deriving DecidableEq, Repr

def newFileData (root : RelativeRoot) : FileData :=
  { root := root, includes := [], included_from := [],
    editor_only_includes := [], editor_only_included_from := [], processed := none }

/-- One constructor per `assert`/failure site of the source. -/
inductive Err where
  /-- Artifact of the fuel-indexed embedding, not a source failure. -/
  | outOfFuel
  /-- `_included_filename_root`: the path exists under more than one root. -/
  | ambiguousRoot (path : String)
  /-- `_included_filename_root`: the path exists under no root. -/
  | rootNotFound (path : String)
  /-- `open` failed for a registered file (unreachable after resolution). -/
  | fileUnreadable (path : String)
  /-- `add_include` line 155: a free-dependency file includes a non-free,
  non-amalgamator file. -/
  | layeringFree (frm tgt : String)
  /-- `add_include` line 157: an amalgamated file includes a raw
  free-dependency file. -/
  | layeringAmalgamated (frm tgt : String)
  /-- `add_editor_only_include` line 166: editor-only include in a
  non-amalgamated file. -/
  | editorOnlyNotAmalgamated (frm : String)
  /-- `add_editor_only_include` line 168: no aggregator for routing through. -/
  | editorOnlyNoRoute (frm tgt : String)
  /-- `validate_free_dependency_file` line 183: a governed file's editor-only
  free-dependency include is missing from the aggregator. -/
  | missingDependency (file missing agg : String)
  /-- `validate_free_dependency_file` line 187: leftover aggregator includes. -/
  | unnecessaryIncludes (agg : String) (extra : List String)
  /-- `maybe_write_file` line 253: generic file seen again for this variant. -/
  | duplicateGeneric (file : String) (includingFile : Option String) (impl : Option String)
  /-- `maybe_write_file` line 254: generic file with no active variant. -/
  | genericNoImpl (file : String)
  /-- `file_to_str` line 274: generic amalgamated file with no variant. -/
  | fileToStrNoImpl (file : String)
  /-- `write_file` line 280: cyclic include. -/
  | cyclicInclude (stack : List String) (file : String)
  /-- `write_file` line 293: editor-only region open at file entry. -/
  | editorRegionAtFileStart (file : String)
  /-- `write_file` line 300: `#ifndef SIMDJSON_AMALGAMATED` in a
  non-amalgamated file. -/
  | ifndefNotAmalgamatedFile (file : String)
  /-- `write_file` line 301: `#ifndef SIMDJSON_AMALGAMATED` with the macro
  not defined. -/
  | ifndefWithoutDefine (file : String) (stack : List String)
  /-- `write_file` line 302: editor-only region opened twice. -/
  | ifndefTwice (file : String)
  /-- `write_file` line 318: `#endif // SIMDJSON_AMALGAMATED` with no open
  region. -/
  | endifWithoutIfndef (file : String)
  /-- `write_file` line 344: variant placeholder used while undefined. -/
  | useBeforeDefine (file line : String)
  /-- `write_file` line 350: `#define SIMDJSON_AMALGAMATED` in an amalgamated
  file. -/
  | defineAmalgInAmalgamated (file : String)
  /-- `write_file` line 351: `SIMDJSON_AMALGAMATED` defined twice. -/
  | redefineAmalg (file : String)
  /-- `write_file` line 356: `#undef SIMDJSON_AMALGAMATED` in an amalgamated
  file. -/
  | undefAmalgInAmalgamated (file : String)
  /-- `write_file` line 357: `SIMDJSON_AMALGAMATED` undefined while not
  defined. -/
  | undefAmalgWithoutDefine (file : String)
  /-- `write_file` line 363: file ended inside an editor-only region. -/
  | unterminatedEditorOnly (file : String)
  /-- `write_file` line 369: `builtin/begin.h` finished without the builtin
  flag (the flag is never set: the guard at line 287 compares a file object
  with a string and is always false). -/
  | builtinBeginNotSet (file : String)
  /-- `write_file` line 372: `builtin/end.h` finished with a variant set. -/
  | builtinEndImplSet (file : String)
  /-- `write_file` line 373: `builtin/end.h` finished without the builtin
  flag. -/
  | builtinEndNotBuiltin (file : String)
deriving DecidableEq, Repr

/-- Observable emission events, instrumenting the writer: `expandStart p` is
recorded exactly when the source prints the `begin file` marker for `p`
(the file's content is inlined), `skippedDup p` exactly when it prints a
`skipped duplicate` annotation in place of `p`'s content. -/
inductive Event where
  | expandStart (path : String)
  | skippedDup (path : String)
deriving DecidableEq, Repr

/-- The whole mutable state of one `Amalgamator.amalgamate` run: the lazily
built repository plus every field of `Amalgamator.__init__`, the emitted
output lines, and the instrumentation events. -/
structure AmState where
  registry : List (String × FileData)
  output : List String
  events : List Event
  builtin_implementation : Bool
  impl : Option String
  found_includes : List String
  found_includes_per_amalgamation : List String
  found_generic_includes : List (String × String)
  amalgamated_defined : Bool
  editor_only_region : Bool
  include_stack : List String
deriving DecidableEq, Repr

/-- Fresh state for one run; the header comment line is printed first
(`amalgamate` line 231). -/
def initState (timestamp : String) : AmState :=
  { registry := []
    output := ["/* auto-generated on " ++ timestamp ++ ". Do not edit! */"]
    events := []
    builtin_implementation := false
    impl := none
    found_includes := []
    found_includes_per_amalgamation := []
    found_generic_includes := []
    amalgamated_defined := false
    editor_only_region := false
    include_stack := [] }

/-- Association-list lookup in the registry. -/
def regFind (reg : List (String × FileData)) (p : String) : Option FileData :=
  (reg.find? (fun e => e.1 == p)).map (fun e => e.2)

/-- Update the record of `p` in place (used for relation bookkeeping). -/
def regUpdate (reg : List (String × FileData)) (p : String) (f : FileData → FileData) :
    List (String × FileData) :=
  reg.map (fun e => if e.1 == p then (e.1, f e.2) else e)

/-- `SimdjsonRepository._included_filename_root`: the path must exist under
exactly one of the configured roots. -/
def resolveRoot (fs : FS) (roots : List RelativeRoot) (p : String) :
    Except Err RelativeRoot :=
  let hits := roots.filter (fun r => (fs.get r p).isSome)
  match hits with
  | [] => .error (.rootNotFound p)
  | [r] => .ok r
  | _ :: _ :: _ => .error (.ambiguousRoot p)

/-- `SimdjsonRepository.__getitem__`: memoized lazy creation of file
records.  Returns the root of the (possibly just created) record. -/
def registryGet (fs : FS) (roots : List RelativeRoot) (p : String) (st : AmState) :
    Except Err (RelativeRoot × AmState) :=
  match regFind st.registry p with
  | some fd => .ok (fd.root, st)
  | none =>
    match resolveRoot fs roots p with
    | .error e => .error e
    | .ok r => .ok (r, { st with registry := st.registry ++ [(p, newFileData r)] })

/-- `SimdjsonFile.is_free_dependency` as evaluated at run time: deciding it
forces the registry lookup of the designated aggregator, which fails when the
aggregator is missing on disk. -/
def isFreeDependencyM (fs : FS) (roots : List RelativeRoot) (p : String) (st : AmState) :
    Except Err (Bool × AmState) :=
  match free_dependency_file p with
  | none => .ok (true, st)
  | some q =>
    match registryGet fs roots q st with
    | .error e => .error e
    | .ok (_, st) => .ok (false, st)

/-- `SimdjsonFile.is_amalgamated` as evaluated at run time. -/
def isAmalgamatedM (fs : FS) (roots : List RelativeRoot) (p : String) (st : AmState) :
    Except Err (Bool × AmState) :=
  match isFreeDependencyM fs roots p st with
  | .error e => .error e
  | .ok (b, st) => .ok (!b, st)

/-- Python `set.add`: append if absent. -/
def setAdd (l : List String) (x : String) : List String :=
  if x ∈ l then l else l ++ [x]

/-- The relation bookkeeping of `add_include` (lines 162-163): append the target
path onto `frm.includes` (duplicates allowed) and add `frm` into the set
`included_from` of the target. -/
def recordInclude (st : AmState) (frm tgt : String) : AmState :=
  let reg1 := regUpdate st.registry frm (fun fd => { fd with includes := fd.includes ++ [tgt] })
  let reg2 := regUpdate reg1 tgt (fun fd => { fd with included_from := setAdd fd.included_from frm })
  { st with registry := reg2 }

/-- The relation bookkeeping of `add_editor_only_include` (lines 173-174). -/
def recordEditorOnlyInclude (st : AmState) (frm tgt : String) : AmState :=
  let reg1 := regUpdate st.registry frm
    (fun fd => { fd with editor_only_includes := fd.editor_only_includes ++ [tgt] })
  let reg2 := regUpdate reg1 tgt
    (fun fd => { fd with editor_only_included_from := setAdd fd.editor_only_included_from frm })
  { st with registry := reg2 }

/-- `SimdjsonFile.add_include` (lines 152-163): layering checks, then the
relation bookkeeping. -/
def add_include (fs : FS) (roots : List RelativeRoot) (frm tgt : String) (st : AmState) :
    Except Err AmState :=
  match isFreeDependencyM fs roots frm st with
  | .error e => .error e
  | .ok (frmFree, st) =>
    if frmFree then
      match isFreeDependencyM fs roots tgt st with
      | .error e => .error e
      | .ok (toFree, st) =>
        if toFree then
          .ok (recordInclude st frm tgt)
        else
          match registryGet fs roots tgt st with
          | .error e => .error e
          | .ok (toRoot, st) =>
            if is_amalgamator toRoot tgt then
              .ok (recordInclude st frm tgt)
            else
              .error (.layeringFree frm tgt)
    else
      match isFreeDependencyM fs roots tgt st with
      | .error e => .error e
      | .ok (toFree, st) =>
        if toFree then
          .error (.layeringAmalgamated frm tgt)
        else
          .ok (recordInclude st frm tgt)

/-- `SimdjsonFile.add_editor_only_include` (lines 165-174). -/
def add_editor_only_include (fs : FS) (roots : List RelativeRoot) (frm tgt : String)
    (st : AmState) : Except Err AmState :=
  match isAmalgamatedM fs roots frm st with
  | .error e => .error e
  | .ok (frmAm, st) =>
    if !frmAm then
      .error (.editorOnlyNotAmalgamated frm)
    else
      match isFreeDependencyM fs roots tgt st with
      | .error e => .error e
      | .ok (toFree, st) =>
        if toFree then
          match free_dependency_file frm with
          | none => .error (.editorOnlyNoRoute frm tgt)
          | some q =>
            match registryGet fs roots q st with
            | .error e => .error e
            | .ok (_, st) => .ok (recordEditorOnlyInclude st frm tgt)
        else
          .ok (recordEditorOnlyInclude st frm tgt)

/-! ### The amalgamation writer -/

/-- Membership test of `maybe_write_file` line 253: the pair
`(file, self.implementation)` is searched in `found_generic_includes`; the
recorded pairs always carry a set variant, so with no active variant the
test is vacuously false. -/
def genericSeen (l : List (String × String)) (p : String) (impl : Option String) : Bool :=
  match impl with
  | some v => l.contains (p, v)
  | none => false

/-- Python interpolation of an `Optional[str]`. -/
def optImplStr : Option String → String
  | none => "None"
  | some s => s

/-- `Amalgamator.file_to_str` (lines 272-276). -/
def file_to_str (fs : FS) (roots : List RelativeRoot) (p : String) (st : AmState) :
    Except Err (String × AmState) :=
  if is_generic p then
    match isAmalgamatedM fs roots p st with
    | .error e => .error e
    | .ok (amalg, st) =>
      if amalg then
        match st.impl with
        | some v => .ok (p ++ " for " ++ v, st)
        | none => .error (.fileToStrNoImpl p)
      else .ok (p, st)
  else .ok (p, st)

/-- The `SIMDJSON_IMPLEMENTATION` define/undef/substitution chain of the
per-line loop (lines 329-345): returns the possibly substituted line. -/
def implChain (p line : String) (st : AmState) : Except Err (String × AmState) :=
  match matchDefineImpl line with
  | some newImpl =>
    let annLine :=
      match st.impl with
      | none => "/* defining SIMDJSON_IMPLEMENTATION to \"" ++ newImpl ++ "\" */"
      | some o =>
        "/* redefining SIMDJSON_IMPLEMENTATION from \"" ++ o ++ "\" to \"" ++ newImpl ++ "\" */"
    .ok (line, { st with impl := some newImpl, output := st.output ++ [annLine] })
  | none =>
    if matchUndefImpl line then
      let annLine :=
        "/* undefining SIMDJSON_IMPLEMENTATION from \"" ++ optImplStr st.impl ++ "\" */"
      .ok (line, { st with output := st.output ++ [annLine], impl := none })
    else if hasImplToken line && p != IMPLEMENTATION_DETECTION_H then
      match st.impl with
      | none => .error (.useBeforeDefine p line)
      | some v => .ok (substImplToken line v, st)
    else .ok (line, st)

/-- The `SIMDJSON_AMALGAMATED` define/undef chain of the per-line loop
(lines 347-359), applied to the possibly substituted line. -/
def amalgChain (fs : FS) (roots : List RelativeRoot) (p line : String) (st : AmState) :
    Except Err AmState :=
  if matchDefineAmalg line then
    match isAmalgamatedM fs roots p st with
    | .error e => .error e
    | .ok (amalg, st) =>
      if amalg then .error (.defineAmalgInAmalgamated p)
      else if st.amalgamated_defined then .error (.redefineAmalg p)
      else
        .ok { st with amalgamated_defined := true, found_includes_per_amalgamation := [],
                      output := st.output ++ ["/* defining SIMDJSON_AMALGAMATED */"] }
  else if matchUndefAmalg line then
    match isAmalgamatedM fs roots p st with
    | .error e => .error e
    | .ok (amalg, st) =>
      if amalg then .error (.undefAmalgInAmalgamated p)
      else if !st.amalgamated_defined then .error (.undefAmalgWithoutDefine p)
      else
        .ok { st with output := st.output ++ ["/* undefining SIMDJSON_AMALGAMATED */"],
                      amalgamated_defined := false }
  else .ok st

/-- The tail of the per-line loop of `write_file` (lines 329-361): the
`SIMDJSON_IMPLEMENTATION` define/undef/substitution chain, then the
`SIMDJSON_AMALGAMATED` define/undef chain (on the possibly substituted
line), then the verbatim emission of the line. -/
def handleRestOfLine (fs : FS) (roots : List RelativeRoot) (p line : String) (st : AmState) :
    Except Err AmState :=
  match implChain p line st with
  | .error e => .error e
  | .ok (line2, st) =>
    match amalgChain fs roots p line2 st with
    | .error e => .error e
    | .ok st => .ok { st with output := st.output ++ [line2] }

/-- The five recursive entry points of the writer, packed into one call type
so the whole recursion is a single structural recursion on fuel (`step`).
`maybeWrite` is `maybe_write_file`, `expand` its expansion tail, `write` is
`write_file`, `lines` the per-file line loop, `line` one loop body. -/
inductive Call where
  | maybeWrite (p : String) (includingFile : Option String) (elseLine : String)
  | expand (p : String) (elseLine : String)
  | write (p : String)
  | lines (p : String) (lines : List String)
  | line (p : String) (line : String)

/-- The `#ifndef SIMDJSON_AMALGAMATED` recognition at the top of the
per-line loop (lines 299-303). -/
def ifndefStep (fs : FS) (roots : List RelativeRoot) (p line : String) (st : AmState) :
    Except Err AmState :=
  if matchIfndefAmalg line then
    match isAmalgamatedM fs roots p st with
    | .error e => .error e
    | .ok (amalg, st) =>
      if !amalg then .error (Err.ifndefNotAmalgamatedFile p)
      else if !st.amalgamated_defined then .error (Err.ifndefWithoutDefine p st.include_stack)
      else if st.editor_only_region then .error (Err.ifndefTwice p)
      else .ok { st with editor_only_region := true }
  else .ok st

/-- The tail of the editor-only branch of the per-line loop (lines 310-316):
record any editor-only include, close the region on the matching `#endif`. -/
def editorRegionLine2 (fs : FS) (roots : List RelativeRoot) (p line : String)
    (endIgnore : Bool) (st : AmState) : Except Err AmState :=
  match matchInclude line with
  | some inc =>
    (match registryGet fs roots inc st with
     | .error e => .error e
     | .ok (_, st) =>
       match add_editor_only_include fs roots p inc st with
       | .error e => .error e
       | .ok st => if endIgnore then .ok { st with editor_only_region := false } else .ok st)
  | none => if endIgnore then .ok { st with editor_only_region := false } else .ok st

/-- The editor-only branch of the per-line loop (lines 307-316): the skipped
annotation, then the include bookkeeping and region closing. -/
def editorRegionLine (fs : FS) (roots : List RelativeRoot) (p line : String)
    (endIgnore : Bool) (st : AmState) : Except Err AmState :=
  editorRegionLine2 fs roots p line endIgnore
    { st with output :=
        st.output ++ ["/* amalgamation skipped (editor-only): " ++ line ++ " */"] }

/-- The final bookkeeping of `write_file` (lines 376-378): mark the file
processed and pop the include stack. -/
def finishWrite (p : String) (st : AmState) : Except Err AmState :=
  .ok { st with
        registry := regUpdate st.registry p (fun fd => { fd with processed := some true }),
        include_stack := st.include_stack.dropLast }

/-- The part of the `write_file` exit tail after the `end file` marker
(lines 367-378): the builtin begin/end special cases, then the final
bookkeeping. -/
def writeFileExit2 (p : String) (st : AmState) : Except Err AmState :=
  if p == BUILTIN_BEGIN_H then
    if !st.builtin_implementation then .error (Err.builtinBeginNotSet p)
    else finishWrite p { st with impl := some "SIMDJSON_BUILTIN_IMPLEMENTATION" }
  else if p == BUILTIN_END_H then
    if st.impl.isSome then .error (Err.builtinEndImplSet p)
    else if !st.builtin_implementation then .error (Err.builtinEndNotBuiltin p)
    else finishWrite p { st with impl := none }
  else finishWrite p st

/-- The end-of-file tail of `write_file` (lines 363-378): closing checks, the
`end file` marker, the builtin begin/end special cases, and the stack pop. -/
def writeFileExit (fs : FS) (roots : List RelativeRoot) (p : String) (st : AmState) :
    Except Err AmState :=
  if st.editor_only_region then .error (Err.unterminatedEditorOnly p)
  else
    match file_to_str fs roots p st with
    | .error e => .error e
    | .ok (fstr2, st) =>
      writeFileExit2 p { st with output := st.output ++ ["/* end file " ++ fstr2 ++ " */"] }

/-- The middle of `write_file` (lines 293-361): the editor-region sanity
check, opening the file and running the per-line loop, then the exit tail.
`rec` runs the line loop one fuel level down. -/
def writeFileBody2 (fs : FS) (roots : List RelativeRoot)
    (rec : Call → AmState → Except Err AmState) (p : String) (st : AmState) :
    Except Err AmState :=
  if st.editor_only_region then .error (Err.editorRegionAtFileStart p)
  else
    match registryGet fs roots p st with
    | .error e => .error e
    | .ok (root, st) =>
      match fs.get root p with
      | none => .error (Err.fileUnreadable p)
      | some ls =>
        match rec (Call.lines p ls) st with
        | .error e => .error e
        | .ok st => writeFileExit fs roots p st

/-- The body of `write_file` after the cycle check and stack push (lines
283-378): mark in-progress, emit the `begin file` marker, then the rest. -/
def writeFileBody (fs : FS) (roots : List RelativeRoot)
    (rec : Call → AmState → Except Err AmState) (p : String) (st : AmState) :
    Except Err AmState :=
  match file_to_str fs roots p st with
  | .error e => .error e
  | .ok (fstr, st) =>
    writeFileBody2 fs roots rec p
      { st with output := st.output ++ ["/* begin file " ++ fstr ++ " */"],
                events := st.events ++ [.expandStart p] }

/-- One step of the writer: the bodies of `maybe_write_file` (lines 249-267)
and `write_file` (lines 278-378), with `rec` standing for the recursive
calls one fuel level down.  The dead builtin-begin block at lines 287-291
(whose guard compares a file object with a string and is therefore always
false in Python) is not modelled. -/
def stepF (fs : FS) (roots : List RelativeRoot)
    (rec : Call → AmState → Except Err AmState) :
    Call → AmState → Except Err AmState
  | Call.maybeWrite p includingFile elseLine, st =>
    (match isAmalgamatedM fs roots p st with
     | .error e => .error e
     | .ok (amalg, st) =>
       if amalg then
         if is_generic p then
           if genericSeen st.found_generic_includes p st.impl then
             .error (Err.duplicateGeneric p includingFile st.impl)
           else
             match st.impl with
             | none => .error (Err.genericNoImpl p)
             | some v =>
               rec (Call.expand p elseLine)
                 { st with found_generic_includes := st.found_generic_includes ++ [(p, v)] }
         else
           rec (Call.expand p elseLine)
             (if p ∈ st.found_includes_per_amalgamation then st
              else { st with
                     found_includes_per_amalgamation :=
                       st.found_includes_per_amalgamation ++ [p] })
       else
         if p ∈ st.found_includes then
           .ok { st with output := st.output ++ ["/* skipped duplicate " ++ elseLine ++ " */"],
                         events := st.events ++ [.skippedDup p] }
         else
           rec (Call.expand p elseLine) { st with found_includes := st.found_includes ++ [p] })
  | Call.expand p elseLine, st =>
    (match file_to_str fs roots p st with
     | .error e => .error e
     | .ok (fstr, st) =>
       rec (Call.write p)
         { st with
           output := st.output ++ ["/* including " ++ fstr ++ ": " ++ elseLine ++ " */"] })
  | Call.write p, st =>
    if p ∈ st.include_stack then .error (Err.cyclicInclude st.include_stack p)
    else
      writeFileBody fs roots rec p
        { st with include_stack := st.include_stack ++ [p],
                  registry :=
                    regUpdate st.registry p (fun fd => { fd with processed := some false }) }
  | Call.lines _ [], st => .ok st
  | Call.lines p (l :: rest), st =>
    (match rec (Call.line p l) st with
     | .error e => .error e
     | .ok st => rec (Call.lines p rest) st)
  | Call.line p line, st =>
    (match ifndefStep fs roots p line st with
     | .error e => .error e
     | .ok st =>
       if st.editor_only_region then
         editorRegionLine fs roots p line (matchEndifAmalg line) st
       else
         if matchEndifAmalg line then .error (Err.endifWithoutIfndef p)
         else
           match matchInclude line with
           | some inc =>
             (match registryGet fs roots inc st with
              | .error e => .error e
              | .ok (_, st) =>
                match add_include fs roots p inc st with
                | .error e => .error e
                | .ok st => rec (Call.maybeWrite inc (some p) line) st)
           | none => handleRestOfLine fs roots p line st)

/-- Fuel-indexed interpreter for the writer: every recursive call moves one
fuel level down, so reduction is linear in the work done. -/
def step (fs : FS) (roots : List RelativeRoot) : Nat → Call → AmState → Except Err AmState
  | 0, _, _ => .error .outOfFuel
  | fuel + 1, c, st => stepF fs roots (step fs roots fuel) c st

/-- `Amalgamator.maybe_write_file` (lines 249-267). -/
def maybeWriteFile (fs : FS) (roots : List RelativeRoot) (fuel : Nat) (p : String)
    (includingFile : Option String) (elseLine : String) (st : AmState) : Except Err AmState :=
  step fs roots fuel (Call.maybeWrite p includingFile elseLine) st

/-- The expansion tail of `maybe_write_file` (lines 266-267): emit the
`including` annotation and recursively write the file. -/
def expandWrite (fs : FS) (roots : List RelativeRoot) (fuel : Nat) (p elseLine : String)
    (st : AmState) : Except Err AmState :=
  step fs roots fuel (Call.expand p elseLine) st

/-- `Amalgamator.write_file` (lines 278-378). -/
def writeFile (fs : FS) (roots : List RelativeRoot) (fuel : Nat) (p : String)
    (st : AmState) : Except Err AmState :=
  step fs roots fuel (Call.write p) st

/-- The `for line in fid2` loop of `write_file` (lines 295-361). -/
def processLines (fs : FS) (roots : List RelativeRoot) (fuel : Nat) (p : String)
    (ls : List String) (st : AmState) : Except Err AmState :=
  step fs roots fuel (Call.lines p ls) st

/-- The body of the per-line loop of `write_file` (lines 296-361). -/
def processOneLine (fs : FS) (roots : List RelativeRoot) (fuel : Nat) (p line : String)
    (st : AmState) : Except Err AmState :=
  step fs roots fuel (Call.line p line) st


/-! ### The dependency completeness validator and the top level -/

/-- Read a file's recorded `includes` from the registry. -/
def includesOf (st : AmState) (p : String) : List String :=
  match regFind st.registry p with
  | some fd => fd.includes
  | none => []

/-- Read a file's recorded `editor_only_includes` from the registry. -/
def eoIncludesOf (st : AmState) (p : String) : List String :=
  match regFind st.registry p with
  | some fd => fd.editor_only_includes
  | none => []

/-- The test `file.free_dependency_file == self` of line 180: evaluating the
property forces the aggregator lookup; object identity then coincides with
path equality because the registry memoizes records by path. -/
def governedBy (fs : FS) (roots : List RelativeRoot) (f agg : String) (st : AmState) :
    Except Err (Bool × AmState) :=
  match free_dependency_file f with
  | none => .ok (false, st)
  | some q =>
    match registryGet fs roots q st with
    | .error e => .error e
    | .ok (_, st) => .ok (q == agg, st)

/-- The inner loop of `validate_free_dependency_file` (lines 181-185): check
each editor-only include of one governed file, threading the leftover
`extra_include_set` (modelled as a duplicate-free list). -/
def checkEoIncludes (fs : FS) (roots : List RelativeRoot) (aggP : String)
    (aggInc : List String) (f : String) :
    List String → List String → AmState → Except Err (List String × AmState)
  | [], extra, st => .ok (extra, st)
  | eo :: rest, extra, st =>
    match isFreeDependencyM fs roots eo st with
    | .error e => .error e
    | .ok (eoFree, st) =>
      if eoFree then
        if eo ∈ aggInc then
          let extra := if eo ∈ extra then extra.erase eo else extra
          checkEoIncludes fs roots aggP aggInc f rest extra st
        else .error (Err.missingDependency f eo aggP)
      else checkEoIncludes fs roots aggP aggInc f rest extra st

/-- The outer loop of `validate_free_dependency_file` (lines 179-185) over a
snapshot of the registry paths. -/
def validateGoverned (fs : FS) (roots : List RelativeRoot) (aggP : String)
    (aggInc : List String) :
    List String → List String → AmState → Except Err (List String × AmState)
  | [], extra, st => .ok (extra, st)
  | f :: rest, extra, st =>
    match governedBy fs roots f aggP st with
    | .error e => .error e
    | .ok (isGov, st) =>
      if isGov then
        match checkEoIncludes fs roots aggP aggInc f (eoIncludesOf st f) extra st with
        | .error e => .error e
        | .ok (extra, st) => validateGoverned fs roots aggP aggInc rest extra st
      else validateGoverned fs roots aggP aggInc rest extra st

/-- `SimdjsonFile.validate_free_dependency_file` (lines 176-187). -/
def validate_free_dependency_file (fs : FS) (roots : List RelativeRoot) (aggP : String)
    (st : AmState) : Except Err AmState :=
  if is_free_dependency_file aggP then
    let aggInc := includesOf st aggP
    let snapshot := st.registry.map (fun e => e.1)
    match validateGoverned fs roots aggP aggInc snapshot aggInc.dedup st with
    | .error e => .error e
    | .ok (extra, st) =>
      if extra.isEmpty then .ok st else .error (Err.unnecessaryIncludes aggP extra)
  else .ok st

/-- `SimdjsonRepository.validate_free_dependency_files` (lines 195-197). -/
def validateAll (fs : FS) (roots : List RelativeRoot) :
    List String → AmState → Except Err AmState
  | [], st => .ok st
  | p :: rest, st =>
    match validate_free_dependency_file fs roots p st with
    | .error e => .error e
    | .ok st => validateAll fs roots rest st

/-- `Amalgamator.amalgamate` (lines 227-235) up to but excluding the
validation pass: header comment, then the recursive write of the root file. -/
def amalgamateCore (fs : FS) (roots : List RelativeRoot) (file timestamp : String)
    (fuel : Nat) : Except Err AmState :=
  match registryGet fs roots file (initState timestamp) with
  | .error e => .error e
  | .ok (_, st) => maybeWriteFile fs roots fuel file none "" st

/-- `Amalgamator.amalgamate` (lines 227-235): one complete engine run.  The
result is the final state (whose `output` is the artifact's lines) or the
first fatal error, after which the source aborts with no completed
artifact. -/
def runAmalgamate (fs : FS) (roots : List RelativeRoot) (file timestamp : String)
    (fuel : Nat) : Except Err AmState :=
  match amalgamateCore fs roots file timestamp fuel with
  | .error e => .error e
  | .ok st => validateAll fs roots (st.registry.map (fun e => e.1)) st

/-- The run produced a completed artifact. -/
def runOk : Except Err AmState → Bool
  | .ok _ => true
  | .error _ => false

/-- Project a field out of a successful run. -/
def runProj {α : Type} (f : AmState → α) (dflt : α) : Except Err AmState → α
  | .ok st => f st
  | .error _ => dflt

/-- Number of times file `p` was expanded (its `begin file` marker emitted). -/
def countExpand (events : List Event) (p : String) : Nat :=
  events.countP (fun e => e == Event.expandStart p)

/-- Number of `skipped duplicate` annotations emitted in place of `p`. -/
def countSkipped (events : List Event) (p : String) : Nat :=
  events.countP (fun e => e == Event.skippedDup p)

/-- The error of a run, if any (`none` means the run completed). -/
def runErr : Except Err AmState → Option Err
  | .ok _ => none
  | .error e => some e

/-! ### Concrete source trees used as witnesses and counterexamples -/

/-- Two hardware-variant files with a cyclic include between them. -/
def fsCycle : FS := ⟨[
  (RelativeRoot.inc, "simdjson/arm64/a.h", ["#include \"simdjson/arm64/b.h\""]),
  (RelativeRoot.inc, "simdjson/arm64/b.h", ["#include \"simdjson/arm64/a.h\""]),
  (RelativeRoot.inc, "simdjson/generic/dependencies.h", ["// deps"])]⟩

/-- An amalgamated, non-generic file (`bar.h`) included twice by `foo.h`. -/
def fsDup : FS := ⟨[
  (RelativeRoot.inc, "simdjson/arm64/foo.h",
    ["#include \"simdjson/arm64/bar.h\"", "#include \"simdjson/arm64/bar.h\""]),
  (RelativeRoot.inc, "simdjson/arm64/bar.h", ["int x;"]),
  (RelativeRoot.inc, "simdjson/generic/dependencies.h", ["// deps"])]⟩

/-- The generic aggregator `generic/dependencies.h` included twice while the
variant `arm64` is active. -/
def fsGeneric : FS := ⟨[
  (RelativeRoot.inc, "simdjson.h",
    ["#define SIMDJSON_IMPLEMENTATION arm64",
     "#include \"generic/dependencies.h\"",
     "#include \"generic/dependencies.h\""]),
  (RelativeRoot.inc, "generic/dependencies.h", ["struct deps;"])]⟩

/-- A governed generic file whose editor-only region names two
free-dependency files, neither of which its aggregator includes. -/
def fsMissing : FS := ⟨[
  (RelativeRoot.inc, "simdjson.h",
    ["#define SIMDJSON_AMALGAMATED",
     "#define SIMDJSON_IMPLEMENTATION arm64",
     "#include \"simdjson/generic/amalgamated.h\""]),
  (RelativeRoot.inc, "simdjson/generic/amalgamated.h",
    ["#include \"simdjson/generic/foo.h\""]),
  (RelativeRoot.inc, "simdjson/generic/foo.h",
    ["#ifndef SIMDJSON_AMALGAMATED",
     "#include \"d1.h\"",
     "#include \"d2.h\"",
     "#endif // SIMDJSON_AMALGAMATED"]),
  (RelativeRoot.inc, "simdjson/generic/dependencies.h", ["// agg"]),
  (RelativeRoot.inc, "d1.h", ["int d1;"]),
  (RelativeRoot.inc, "d2.h", ["int d2;"])]⟩

/-- An aggregator with a direct include that no governed file needs. -/
def fsExtra : FS := ⟨[
  (RelativeRoot.inc, "simdjson.h", ["#include \"generic/dependencies.h\""]),
  (RelativeRoot.inc, "generic/dependencies.h", ["#include \"extra.h\""]),
  (RelativeRoot.inc, "extra.h", ["int e;"])]⟩

/-- A state over `fsDup` in which the two variant files and their aggregator
are already registered (as after resolving them), used to exercise
`add_include` directly. -/
def stDupReady : AmState :=
  { initState "t" with registry :=
      [("simdjson/arm64/foo.h", newFileData RelativeRoot.inc),
       ("simdjson/arm64/bar.h", newFileData RelativeRoot.inc),
       ("simdjson/generic/dependencies.h", newFileData RelativeRoot.inc)] }

instance {ε α : Type} [DecidableEq ε] [DecidableEq α] : DecidableEq (Except ε α) := fun a b =>
  match a, b with
  | .ok x, .ok y => decidable_of_iff (x = y) (by simp)
  | .error x, .error y => decidable_of_iff (x = y) (by simp)
  | .ok _, .error _ => .isFalse (by simp)
  | .error _, .ok _ => .isFalse (by simp)

/-! ### Registry and relation lemmas -/

/-- Read a file's recorded `included_from` set from the registry. -/
def includedFromOf (st : AmState) (p : String) : List String :=
  match regFind st.registry p with
  | some fd => fd.included_from
  | none => []

theorem mem_setAdd_self (l : List String) (x : String) : x ∈ setAdd l x := by
  unfold setAdd
  split <;> simp_all

theorem regFind_append_left {reg d : List (String × FileData)} {p : String} {fd : FileData}
    (h : regFind reg p = some fd) : regFind (reg ++ d) p = some fd := by
  unfold regFind at *
  rw [List.find?_append]
  cases hf : reg.find? (fun e => e.1 == p) <;> simp_all

theorem regFind_cons (k : String) (v : FileData) (rest : List (String × FileData))
    (q : String) : regFind ((k, v) :: rest) q = if k = q then some v else regFind rest q := by
  unfold regFind
  by_cases h : k = q <;> simp [List.find?_cons, h]

theorem regUpdate_cons (k : String) (v : FileData) (rest : List (String × FileData))
    (p : String) (f : FileData → FileData) :
    regUpdate ((k, v) :: rest) p f =
      (if k = p then (k, f v) else (k, v)) :: regUpdate rest p f := by
  unfold regUpdate
  by_cases h : k = p <;> simp [h]

theorem regFind_regUpdate_self (reg : List (String × FileData)) (p : String)
    (f : FileData → FileData) : regFind (regUpdate reg p f) p = (regFind reg p).map f := by
  induction reg with
  | nil => rfl
  | cons e rest ih =>
    obtain ⟨k, v⟩ := e
    rw [regUpdate_cons]
    by_cases h : k = p
    · simp [h, regFind_cons]
    · simp only [if_neg h]
      rw [regFind_cons, regFind_cons, if_neg h, if_neg h, ih]

theorem regFind_regUpdate_ne (reg : List (String × FileData)) {p q : String}
    (f : FileData → FileData) (h : q ≠ p) : regFind (regUpdate reg p f) q = regFind reg q := by
  induction reg with
  | nil => rfl
  | cons e rest ih =>
    obtain ⟨k, v⟩ := e
    rw [regUpdate_cons]
    by_cases h1 : k = p
    · have h2 : k ≠ q := by rw [h1]; exact fun hx => h hx.symm
      simp only [if_pos h1]
      rw [regFind_cons, regFind_cons, if_neg h2, if_neg h2, ih]
    · simp only [if_neg h1]
      rw [regFind_cons, regFind_cons, ih]

theorem recordInclude_includes {st : AmState} {frm : String} {fd : FileData}
    (tgt : String) (h : regFind st.registry frm = some fd) :
    includesOf (recordInclude st frm tgt) frm = includesOf st frm ++ [tgt] := by
  unfold includesOf recordInclude
  by_cases he : frm = tgt
  · subst he
    simp [regFind_regUpdate_self, h]
  · rw [regFind_regUpdate_ne _ _ he, regFind_regUpdate_self]
    simp [h]

theorem recordInclude_included_from {st : AmState} {tgt : String} {fd : FileData}
    (frm : String) (h : regFind st.registry tgt = some fd) :
    frm ∈ includedFromOf (recordInclude st frm tgt) tgt := by
  unfold includedFromOf recordInclude
  rw [regFind_regUpdate_self]
  by_cases he : tgt = frm
  · subst he
    simp [regFind_regUpdate_self, h, mem_setAdd_self]
  · rw [regFind_regUpdate_ne _ _ he]
    simp [h, mem_setAdd_self]

/-- A successful run-time `is_free_dependency` evaluation returns exactly the
path-level classifier value. -/
theorem isFreeDependencyM_ok {fs : FS} {roots : List RelativeRoot} {p : String}
    {st : AmState} {b : Bool} {st' : AmState}
    (h : isFreeDependencyM fs roots p st = .ok (b, st')) : b = is_free_dependency p := by
  unfold isFreeDependencyM at h
  unfold is_free_dependency
  split at h
  next hc =>
    rw [hc]
    simp at h
    simp [h.1]
  next q hc =>
    rw [hc]
    split at h
    · simp at h
    next a r2 st2 hr =>
      simp at h
      simp [h.1]

/-- `registryGet` only appends fresh entries: existing records are found
unchanged afterwards. -/
theorem registryGet_find_preserved {fs : FS} {roots : List RelativeRoot} {q : String}
    {st : AmState} {r : RelativeRoot} {st' : AmState}
    (h : registryGet fs roots q st = .ok (r, st')) {p : String} {fd : FileData}
    (hp : regFind st.registry p = some fd) : regFind st'.registry p = some fd := by
  unfold registryGet at h
  cases hc : regFind st.registry q with
  | some fd2 =>
    rw [hc] at h
    simp at h
    rw [← h.2]
    exact hp
  | none =>
    rw [hc] at h
    cases hr : resolveRoot fs roots q with
    | error e =>
      rw [hr] at h
      simp at h
    | ok r2 =>
      rw [hr] at h
      simp at h
      rw [← h.2]
      exact regFind_append_left hp

/-- `isFreeDependencyM` only appends fresh registry entries. -/
theorem isFreeDependencyM_find_preserved {fs : FS} {roots : List RelativeRoot} {q : String}
    {st : AmState} {b : Bool} {st' : AmState}
    (h : isFreeDependencyM fs roots q st = .ok (b, st')) {p : String} {fd : FileData}
    (hp : regFind st.registry p = some fd) : regFind st'.registry p = some fd := by
  unfold isFreeDependencyM at h
  split at h
  next hc =>
    simp at h
    rw [← h.2]
    exact hp
  next q2 hc =>
    split at h
    · simp at h
    next a r2 st2 hr =>
      simp at h
      rw [← h.2]
      exact registryGet_find_preserved hr hp

/-! ### Claim theorems -/

/-- C6.  Including a file that is still in progress on the include stack is
detected on entry to `write_file` and fails the run with a cyclic-include
error carrying the full include stack (first conjunct, for every state,
filesystem and fuel).  An error always propagates to the top level of the
run and no completed artifact is produced; the second conjunct exhibits this
end to end on the two-file cycle `a.h -> b.h -> a.h`, where the whole engine
run returns the cyclic-include error (and hence no output artifact). -/
theorem cyclic_include_fails :
    (∀ (fs : FS) (roots : List RelativeRoot) (fuel : Nat) (p : String) (st : AmState),
      p ∈ st.include_stack →
      writeFile fs roots (fuel + 1) p st = .error (Err.cyclicInclude st.include_stack p)) ∧
    runErr (runAmalgamate fsCycle [RelativeRoot.inc] "simdjson/arm64/a.h" "t" 64) =
      some (Err.cyclicInclude ["simdjson/arm64/a.h", "simdjson/arm64/b.h"]
        "simdjson/arm64/a.h") := by
  constructor
  · intro fs roots fuel p st h
    simp [writeFile, step, stepF, h]
  · decide

/-- C3.  `add_include(from, to)`: a free-dependency `from` may include only a
free-dependency or amalgamator target (the call succeeds only under that
condition, and fails with a layering error naming both files otherwise); an
amalgamated `from` fails with a layering error naming both files whenever
the target is a free-dependency file; on success the target is appended to
`from.includes` and `from` is added to the target's `included_from` set.
The staged hypotheses state that the run-time classifier evaluations
resolve (their registry lookups succeed), which the first two conjuncts tie
to the pure path classifier. -/
theorem add_include_spec (fs : FS) (roots : List RelativeRoot) (frm tgt : String)
    (st st1 st2 st3 : AmState) (bf bt : Bool) (rt : RelativeRoot) (fdf fdt : FileData)
    (hfr : regFind st.registry frm = some fdf)
    (htr : regFind st.registry tgt = some fdt)
    (hf : isFreeDependencyM fs roots frm st = .ok (bf, st1))
    (ht : isFreeDependencyM fs roots tgt st1 = .ok (bt, st2))
    (hr : registryGet fs roots tgt st2 = .ok (rt, st3)) :
    bf = is_free_dependency frm ∧ bt = is_free_dependency tgt ∧
    (is_free_dependency frm = true → is_free_dependency tgt = false →
      is_amalgamator rt tgt = false →
      add_include fs roots frm tgt st = .error (Err.layeringFree frm tgt)) ∧
    (is_free_dependency frm = false → is_free_dependency tgt = true →
      add_include fs roots frm tgt st = .error (Err.layeringAmalgamated frm tgt)) ∧
    (∀ st', add_include fs roots frm tgt st = .ok st' →
      (is_free_dependency frm = true →
        is_free_dependency tgt = true ∨ is_amalgamator rt tgt = true) ∧
      includesOf st' frm = includesOf st frm ++ [tgt] ∧
      frm ∈ includedFromOf st' tgt) := by
  have hbf := isFreeDependencyM_ok hf
  have hbt := isFreeDependencyM_ok ht
  have hfr1 : regFind st1.registry frm = some fdf := isFreeDependencyM_find_preserved hf hfr
  have hfr2 : regFind st2.registry frm = some fdf := isFreeDependencyM_find_preserved ht hfr1
  have hfr3 : regFind st3.registry frm = some fdf := registryGet_find_preserved hr hfr2
  have htr1 : regFind st1.registry tgt = some fdt := isFreeDependencyM_find_preserved hf htr
  have htr2 : regFind st2.registry tgt = some fdt := isFreeDependencyM_find_preserved ht htr1
  have htr3 : regFind st3.registry tgt = some fdt := registryGet_find_preserved hr htr2
  have hio2 : includesOf st2 frm = includesOf st frm := by
    unfold includesOf
    rw [hfr2, hfr]
  have hio3 : includesOf st3 frm = includesOf st frm := by
    unfold includesOf
    rw [hfr3, hfr]
  have key : add_include fs roots frm tgt st =
      (if bf then
        (if bt then .ok (recordInclude st2 frm tgt)
         else if is_amalgamator rt tgt then .ok (recordInclude st3 frm tgt)
         else .error (Err.layeringFree frm tgt))
      else
        (if bt then .error (Err.layeringAmalgamated frm tgt)
         else .ok (recordInclude st2 frm tgt))) := by
    unfold add_include
    rw [hf]
    cases bf with
    | true =>
      simp only [if_pos]
      rw [ht]
      cases bt with
      | true => rfl
      | false =>
        simp only [Bool.false_eq_true, if_false]
        rw [hr]
    | false =>
      simp only [Bool.false_eq_true, if_false]
      rw [ht]
  refine ⟨hbf, hbt, ?_, ?_, ?_⟩
  · intro h1 h2 h3
    rw [key, ← hbf, ← hbt] at *
    simp [hbf, h1, hbt, h2, h3]
  · intro h1 h2
    rw [key]
    simp [hbf, h1, hbt, h2]
  · intro st' hok
    rw [key] at hok
    cases hc1 : bf with
    | true =>
      rw [hc1] at hok
      simp only [if_pos] at hok
      cases hc2 : bt with
      | true =>
        rw [hc2] at hok
        simp only [if_pos] at hok
        have hst : st' = recordInclude st2 frm tgt := by
          cases hok
          rfl
        subst hst
        refine ⟨fun _ => Or.inl (hbt.symm.trans hc2), ?_, ?_⟩
        · rw [recordInclude_includes tgt hfr2, hio2]
        · exact recordInclude_included_from frm htr2
      | false =>
        rw [hc2] at hok
        simp only [Bool.false_eq_true, if_false] at hok
        cases hc3 : is_amalgamator rt tgt with
        | true =>
          rw [hc3] at hok
          simp only [if_pos] at hok
          have hst : st' = recordInclude st3 frm tgt := by
            cases hok
            rfl
          subst hst
          refine ⟨fun _ => Or.inr rfl, ?_, ?_⟩
          · rw [recordInclude_includes tgt hfr3, hio3]
          · exact recordInclude_included_from frm htr3
        | false =>
          rw [hc3] at hok
          simp at hok
    | false =>
      rw [hc1] at hok
      simp only [Bool.false_eq_true, if_false] at hok
      cases hc2 : bt with
      | true =>
        rw [hc2] at hok
        simp at hok
      | false =>
        rw [hc2] at hok
        simp only [Bool.false_eq_true, if_false] at hok
        have hst : st' = recordInclude st2 frm tgt := by
          cases hok
          rfl
        subst hst
        refine ⟨fun h1 => absurd (hc1.symm.trans (hbf.trans h1)) (by decide), ?_, ?_⟩
        · rw [recordInclude_includes tgt hfr2, hio2]
        · exact recordInclude_included_from frm htr2

/-- Witness for C3: the theorem applied to the concrete pair
`simdjson/arm64/foo.h` (amalgamated) including `simdjson/arm64/bar.h`
(amalgamated): the call succeeds and records the relation. -/
theorem add_include_spec_witness :
    ∃ st', add_include fsDup [RelativeRoot.inc] "simdjson/arm64/foo.h" "simdjson/arm64/bar.h"
        stDupReady = .ok st' ∧
      includesOf st' "simdjson/arm64/foo.h" =
        includesOf stDupReady "simdjson/arm64/foo.h" ++ ["simdjson/arm64/bar.h"] ∧
      "simdjson/arm64/foo.h" ∈ includedFromOf st' "simdjson/arm64/bar.h" := by
  have h := add_include_spec fsDup [RelativeRoot.inc] "simdjson/arm64/foo.h"
    "simdjson/arm64/bar.h" stDupReady stDupReady stDupReady stDupReady false false
    RelativeRoot.inc (newFileData RelativeRoot.inc) (newFileData RelativeRoot.inc)
    (by decide) (by decide) (by decide) (by decide) (by decide)
  obtain ⟨-, -, -, -, hsucc⟩ := h
  refine ⟨recordInclude stDupReady "simdjson/arm64/foo.h" "simdjson/arm64/bar.h", ?_, ?_, ?_⟩
  · decide
  · exact (hsucc _ (by decide)).2.1
  · exact (hsucc _ (by decide)).2.2

/-- A run-time `is_amalgamated` evaluation that returns `false` took the
no-lookup branch: the file has no governing aggregator and the state is
unchanged. -/
theorem isAmalgamatedM_false {fs : FS} {roots : List RelativeRoot} {p : String}
    {st st' : AmState} (h : isAmalgamatedM fs roots p st = .ok (false, st')) :
    st' = st ∧ free_dependency_file p = none := by
  unfold isAmalgamatedM at h
  split at h
  · exact absurd h (by simp)
  next b st2 hfree =>
    simp at h
    have hb : b = true := by cases b <;> simp_all
    subst hb
    unfold isFreeDependencyM at hfree
    split at hfree
    next hq =>
      simp at hfree
      exact ⟨(hfree.trans h.2).symm, hq⟩
    next q hq =>
      split at hfree
      · simp at hfree
      · simp at hfree

/-- C10.  A `#define SIMDJSON_AMALGAMATED` or `#undef SIMDJSON_AMALGAMATED`
directive processed in a file that is amalgamated is fatal: only
non-amalgamated (free-dependency) files may toggle the amalgamated flag.
The three auxiliary hypotheses say the line is not also one of the
`SIMDJSON_IMPLEMENTATION` directives, so it reaches the flag chain
unchanged (true of every actual flag directive line). -/
theorem amalg_toggle_in_amalgamated_fatal (fs : FS) (roots : List RelativeRoot)
    (p line : String) (st st1 : AmState)
    (ha : isAmalgamatedM fs roots p st = .ok (true, st1))
    (h1 : matchDefineImpl line = none) (h2 : matchUndefImpl line = false)
    (h3 : hasImplToken line = false) :
    (matchDefineAmalg line = true →
      handleRestOfLine fs roots p line st = .error (Err.defineAmalgInAmalgamated p)) ∧
    (matchDefineAmalg line = false → matchUndefAmalg line = true →
      handleRestOfLine fs roots p line st = .error (Err.undefAmalgInAmalgamated p)) := by
  have himpl : implChain p line st = .ok (line, st) := by
    unfold implChain
    rw [h1]
    simp [h2, h3]
  constructor
  · intro hd
    unfold handleRestOfLine
    rw [himpl]
    simp [amalgChain, hd, ha]
  · intro hd hu
    unfold handleRestOfLine
    rw [himpl]
    simp [amalgChain, hd, hu, ha]

/-- Witness for C10: a `#define SIMDJSON_AMALGAMATED` line inside the
amalgamated file `simdjson/arm64/foo.h` is fatal. -/
theorem amalg_toggle_in_amalgamated_fatal_witness :
    handleRestOfLine fsDup [RelativeRoot.inc] "simdjson/arm64/foo.h"
        "#define SIMDJSON_AMALGAMATED" stDupReady =
      .error (Err.defineAmalgInAmalgamated "simdjson/arm64/foo.h") := by
  exact (amalg_toggle_in_amalgamated_fatal fsDup [RelativeRoot.inc] "simdjson/arm64/foo.h"
    "#define SIMDJSON_AMALGAMATED" stDupReady stDupReady (by decide) (by decide) (by decide)
    (by decide)).1 (by decide)

/-- C7.  Strict sequencing of the amalgamated-build flag, in a file allowed
to toggle it (a non-amalgamated file): a second define while the flag is set
fails with the redefinition error; an undef while the flag is clear fails
with the undefined-without-define error; and a successful define sets the
flag and clears `found_includes_per_amalgamation`, the per-run set recording
non-generic amalgamated files. -/
theorem amalg_flag_sequencing (fs : FS) (roots : List RelativeRoot)
    (p line : String) (st st1 : AmState)
    (ha : isAmalgamatedM fs roots p st = .ok (false, st1))
    (h1 : matchDefineImpl line = none) (h2 : matchUndefImpl line = false)
    (h3 : hasImplToken line = false) :
    (matchDefineAmalg line = true → st.amalgamated_defined = true →
      handleRestOfLine fs roots p line st = .error (Err.redefineAmalg p)) ∧
    (matchDefineAmalg line = false → matchUndefAmalg line = true →
      st.amalgamated_defined = false →
      handleRestOfLine fs roots p line st = .error (Err.undefAmalgWithoutDefine p)) ∧
    (matchDefineAmalg line = true → st.amalgamated_defined = false →
      handleRestOfLine fs roots p line st =
        .ok { st with amalgamated_defined := true, found_includes_per_amalgamation := [],
                      output := (st.output ++ ["/* defining SIMDJSON_AMALGAMATED */"])
                        ++ [line] }) := by
  obtain ⟨hst, -⟩ := isAmalgamatedM_false ha
  rw [hst] at ha
  have himpl : implChain p line st = .ok (line, st) := by
    unfold implChain
    rw [h1]
    simp [h2, h3]
  refine ⟨?_, ?_, ?_⟩
  · intro hd hflag
    unfold handleRestOfLine
    rw [himpl]
    simp [amalgChain, hd, ha, hflag]
  · intro hd hu hflag
    unfold handleRestOfLine
    rw [himpl]
    simp [amalgChain, hd, hu, ha, hflag]
  · intro hd hflag
    unfold handleRestOfLine
    rw [himpl]
    simp [amalgChain, hd, ha, hflag]

/-- Witness for C7: a first `#define SIMDJSON_AMALGAMATED` in the
free-dependency file `simdjson.h` succeeds, sets the flag, and clears the
per-amalgamation set. -/
theorem amalg_flag_sequencing_witness :
    handleRestOfLine fsDup [RelativeRoot.inc] "simdjson.h"
        "#define SIMDJSON_AMALGAMATED"
        { stDupReady with found_includes_per_amalgamation := ["simdjson/arm64/bar.h"] } =
      .ok { { stDupReady with found_includes_per_amalgamation := ["simdjson/arm64/bar.h"] } with
            amalgamated_defined := true, found_includes_per_amalgamation := [],
            output := ({ stDupReady with
              found_includes_per_amalgamation := ["simdjson/arm64/bar.h"] }.output
                ++ ["/* defining SIMDJSON_AMALGAMATED */"]) ++ ["#define SIMDJSON_AMALGAMATED"] } := by
  exact (amalg_flag_sequencing fsDup [RelativeRoot.inc] "simdjson.h"
    "#define SIMDJSON_AMALGAMATED"
    { stDupReady with found_includes_per_amalgamation := ["simdjson/arm64/bar.h"] }
    { stDupReady with found_includes_per_amalgamation := ["simdjson/arm64/bar.h"] }
    (by decide) (by decide) (by decide) (by decide)).2.2 (by decide) (by decide)

/-- C5.  A line referencing the variant placeholder outside directive
handling: with active variant `v` it is emitted with every word-boundary
occurrence of the placeholder replaced by `v` (the `re.sub` model
`substImplToken`); with no active variant the run fails with the
use-before-define error; and inside the implementation-detection file the
line is passed through unmodified. -/
theorem variant_substitution (fs : FS) (roots : List RelativeRoot) (line : String)
    (st : AmState)
    (h1 : matchDefineImpl line = none) (h2 : matchUndefImpl line = false)
    (ht : hasImplToken line = true) :
    (∀ p v, p ≠ IMPLEMENTATION_DETECTION_H → st.impl = some v →
      matchDefineAmalg (substImplToken line v) = false →
      matchUndefAmalg (substImplToken line v) = false →
      handleRestOfLine fs roots p line st =
        .ok { st with output := st.output ++ [substImplToken line v] }) ∧
    (∀ p, p ≠ IMPLEMENTATION_DETECTION_H → st.impl = none →
      handleRestOfLine fs roots p line st = .error (Err.useBeforeDefine p line)) ∧
    (matchDefineAmalg line = false → matchUndefAmalg line = false →
      handleRestOfLine fs roots IMPLEMENTATION_DETECTION_H line st =
        .ok { st with output := st.output ++ [line] }) := by
  refine ⟨?_, ?_, ?_⟩
  · intro p v hp hv hd hu
    have hpb : (p != IMPLEMENTATION_DETECTION_H) = true := by simp [hp]
    unfold handleRestOfLine implChain
    rw [h1]
    simp [amalgChain, h2, ht, hpb, hv, hd, hu]
  · intro p hp hv
    have hpb : (p != IMPLEMENTATION_DETECTION_H) = true := by simp [hp]
    unfold handleRestOfLine implChain
    rw [h1]
    simp [h2, ht, hpb, hv]
  · intro hd hu
    have hpb : (IMPLEMENTATION_DETECTION_H != IMPLEMENTATION_DETECTION_H) = false := by simp
    unfold handleRestOfLine implChain
    rw [h1]
    simp [amalgChain, h2, ht, hpb, hd, hu]

/-- Witness for C5: a placeholder-bearing line processed with active variant
`arm64` in an ordinary file is emitted with the placeholder substituted. -/
theorem variant_substitution_witness :
    handleRestOfLine fsDup [RelativeRoot.inc] "simdjson/arm64/bar.h"
        "int SIMDJSON_IMPLEMENTATION::f();" { stDupReady with impl := some "arm64" } =
      .ok { { stDupReady with impl := some "arm64" } with
            output := { stDupReady with impl := some "arm64" }.output
              ++ [substImplToken "int SIMDJSON_IMPLEMENTATION::f();" "arm64"] } := by
  exact (variant_substitution fsDup [RelativeRoot.inc] "int SIMDJSON_IMPLEMENTATION::f();"
    { stDupReady with impl := some "arm64" } (by decide) (by decide) (by decide)).1
    "simdjson/arm64/bar.h" "arm64" (by decide) rfl (by decide) (by decide)

/-- A state over `fsMissing` in which the generic file `foo.h` and its
aggregator are registered, the variant `arm64` is active, and `foo.h` has
already been expanded for `arm64`. -/
def stGenReady : AmState :=
  { initState "t" with
      registry := [("simdjson/generic/foo.h", newFileData RelativeRoot.inc),
                   ("simdjson/generic/dependencies.h", newFileData RelativeRoot.inc)]
      impl := some "arm64"
      found_generic_includes := [("simdjson/generic/foo.h", "arm64")] }

/-- C4 counterexample.  The claim quantifies over every generic file, but the
generic dependency aggregator `generic/dependencies.h` (for which
`is_generic` holds) is handled by the free-dependency branch of
`maybe_write_file`: in this run it is included a second time while the same
variant `arm64` is active, and instead of the claimed fatal duplicate error
the run completes, emitting a skipped-duplicate annotation (the final state
also shows `arm64` was still the active variant). -/
theorem generic_once_per_variant_counterexample :
    is_generic "generic/dependencies.h" = true ∧
    runOk (runAmalgamate fsGeneric [RelativeRoot.inc] "simdjson.h" "t" 64) = true ∧
    runProj (fun st => st.impl) none
      (runAmalgamate fsGeneric [RelativeRoot.inc] "simdjson.h" "t" 64) = some "arm64" ∧
    runProj (fun st => st.events) []
      (runAmalgamate fsGeneric [RelativeRoot.inc] "simdjson.h" "t" 64) =
      [Event.expandStart "simdjson.h", Event.expandStart "generic/dependencies.h",
       Event.skippedDup "generic/dependencies.h"] := by
  refine ⟨by decide, by decide, by decide, by decide⟩

/-- C4 as amended: for every generic *amalgamated* file (every generic file
except the dependency aggregators, which take the free-dependency path): a
second inclusion while the same variant is active is the fatal duplicate
error; inclusion with no active variant is fatal; and a first inclusion
under variant `v` records `(file, v)` and expands the file. -/
theorem generic_once_per_variant (fs : FS) (roots : List RelativeRoot) (fuel : Nat)
    (p : String) (incf : Option String) (el : String) (st st1 : AmState)
    (ha : isAmalgamatedM fs roots p st = .ok (true, st1)) (hg : is_generic p = true) :
    (∀ v, st1.impl = some v → (p, v) ∈ st1.found_generic_includes →
      maybeWriteFile fs roots (fuel + 1) p incf el st =
        .error (Err.duplicateGeneric p incf st1.impl)) ∧
    (st1.impl = none →
      maybeWriteFile fs roots (fuel + 1) p incf el st = .error (Err.genericNoImpl p)) ∧
    (∀ v, st1.impl = some v → (p, v) ∉ st1.found_generic_includes →
      maybeWriteFile fs roots (fuel + 1) p incf el st =
        expandWrite fs roots fuel p el
          { st1 with found_generic_includes := st1.found_generic_includes ++ [(p, v)] }) := by
  refine ⟨?_, ?_, ?_⟩
  · intro v hv hmem
    unfold maybeWriteFile step stepF
    simp [ha, hg, genericSeen, hv, hmem]
  · intro hv
    unfold maybeWriteFile step stepF
    simp [ha, hg, genericSeen, hv]
  · intro v hv hmem
    unfold maybeWriteFile step stepF expandWrite
    simp [ha, hg, genericSeen, hv, hmem]

/-- Witness for the amended C4: a second inclusion of the generic file
`simdjson/generic/foo.h` while `arm64` is active is the fatal duplicate
error. -/
theorem generic_once_per_variant_witness :
    maybeWriteFile fsMissing [RelativeRoot.inc] 8 "simdjson/generic/foo.h"
        (some "simdjson/generic/amalgamated.h") "x" stGenReady =
      .error (Err.duplicateGeneric "simdjson/generic/foo.h"
        (some "simdjson/generic/amalgamated.h") stGenReady.impl) := by
  exact (generic_once_per_variant fsMissing [RelativeRoot.inc] 7 "simdjson/generic/foo.h"
    (some "simdjson/generic/amalgamated.h") "x" stGenReady stGenReady (by decide)
    (by decide)).1 "arm64" (by decide) (by decide)

/-- C8.  The engine is deterministic: one run is a pure function of the
source tree, the root file, the configured roots and the pinned timestamp
(all run state is created fresh inside `amalgamate`, the embedding has no
other inputs), so two runs over the unchanged tree return identical results
and in particular byte-identical artifacts. -/
theorem run_deterministic (fs : FS) (roots : List RelativeRoot) (file ts : String)
    (fuel : Nat) (o1 o2 : Except Err AmState)
    (h1 : runAmalgamate fs roots file ts fuel = o1)
    (h2 : runAmalgamate fs roots file ts fuel = o2) :
    o1 = o2 ∧ runProj (fun st => st.output) [] o1 = runProj (fun st => st.output) [] o2 := by
  subst h1
  subst h2
  exact ⟨rfl, rfl⟩

/-- Witness for C8: two runs over the unchanged `fsGeneric` tree (a run that
completes successfully) give the same artifact. -/
theorem run_deterministic_witness :
    runOk (runAmalgamate fsGeneric [RelativeRoot.inc] "simdjson.h" "t" 64) = true ∧
    runProj (fun st => st.output) []
        (runAmalgamate fsGeneric [RelativeRoot.inc] "simdjson.h" "t" 64) =
      runProj (fun st => st.output) []
        (runAmalgamate fsGeneric [RelativeRoot.inc] "simdjson.h" "t" 64) :=
  ⟨by decide,
   (run_deterministic fsGeneric [RelativeRoot.inc] "simdjson.h" "t" 64 _ _ rfl rfl).2⟩

/-- `registryGet` succeeds whenever the path resolves on disk (or is already
registered). -/
theorem registryGet_total {fs : FS} {roots : List RelativeRoot} {q : String} (st : AmState)
    (h : ∃ r, resolveRoot fs roots q = .ok r) :
    ∃ r st', registryGet fs roots q st = .ok (r, st') := by
  obtain ⟨r, hr⟩ := h
  unfold registryGet
  cases hg : regFind st.registry q with
  | some fd => exact ⟨fd.root, st, rfl⟩
  | none =>
    rw [hr]
    exact ⟨r, _, rfl⟩

/-- Run-time `is_free_dependency` evaluation succeeds whenever the
designated aggregator (if any) resolves on disk. -/
theorem isFreeDependencyM_total {fs : FS} {roots : List RelativeRoot} {p : String}
    (st : AmState)
    (h : ∀ q, free_dependency_file p = some q → ∃ r, resolveRoot fs roots q = .ok r) :
    ∃ st', isFreeDependencyM fs roots p st = .ok (is_free_dependency p, st') := by
  cases hc : free_dependency_file p with
  | none =>
    refine ⟨st, ?_⟩
    unfold isFreeDependencyM
    rw [hc]
    simp [is_free_dependency, hc]
  | some q =>
    obtain ⟨r, st', hreg⟩ := registryGet_total st (h q hc)
    refine ⟨st', ?_⟩
    have hE : isFreeDependencyM fs roots p st =
        (match registryGet fs roots q st with
         | .error e => .error e
         | .ok (_, st2) => .ok (false, st2)) := by
      unfold isFreeDependencyM
      rw [hc]
    rw [hE, hreg]
    simp [is_free_dependency, hc]

/-- C2 as amended: when at least one governed editor-only free-dependency
include is missing from the aggregator, the completeness validator fails at
the first such missing file (in the order the includes were recorded) with
an error naming only that single file, the governed file and the
aggregator — not the complete missing set. -/
theorem validator_first_missing_only (fs : FS) (roots : List RelativeRoot)
    (aggP : String) (aggInc : List String) (f : String) :
    ∀ (eos extra : List String) (st : AmState),
      (∀ eo ∈ eos, ∀ q, free_dependency_file eo = some q →
        ∃ r, resolveRoot fs roots q = .ok r) →
      ∀ m, eos.find? (fun eo => is_free_dependency eo && !(decide (eo ∈ aggInc))) = some m →
      checkEoIncludes fs roots aggP aggInc f eos extra st =
        .error (Err.missingDependency f m aggP) := by
  intro eos
  induction eos with
  | nil => intro extra st _ m hm; simp at hm
  | cons eo rest ih =>
    intro extra st hres m hm
    obtain ⟨st2, hfree⟩ := isFreeDependencyM_total st (fun q hq => hres eo (by simp) q hq)
    unfold checkEoIncludes
    rw [hfree]
    cases hf : is_free_dependency eo with
    | false =>
      rw [hf] at hfree
      simp only [Bool.false_eq_true, if_false]
      apply ih extra st2 (fun e he q hq => hres e (by simp [he]) q hq) m
      rw [List.find?_cons] at hm
      simp [hf] at hm
      exact hm
    | true =>
      rw [hf] at hfree
      by_cases hmem : eo ∈ aggInc
      · simp only [if_pos hmem, if_pos rfl]
        apply ih _ st2 (fun e he q hq => hres e (by simp [he]) q hq) m
        rw [List.find?_cons] at hm
        simp [hf, hmem] at hm
        exact hm
      · have hme : m = eo := by
          rw [List.find?_cons] at hm
          simp [hf, hmem] at hm
          exact hm.symm
        subst hme
        simp [hmem]

/-- C2 counterexample.  In the `fsMissing` tree the governed file
`simdjson/generic/foo.h` names two free-dependency files (`d1.h`, `d2.h`)
in its editor-only region and the aggregator includes neither, yet the run
fails with a `MissingDependencyError` naming only the first missing file
`d1.h` — not the complete set, contradicting the claim as stated. -/
theorem validator_missing_set_counterexample :
    runErr (runAmalgamate fsMissing [RelativeRoot.inc] "simdjson.h" "t" 64) =
      some (Err.missingDependency "simdjson/generic/foo.h" "d1.h"
        "simdjson/generic/dependencies.h") ∧
    runProj (fun st => eoIncludesOf st "simdjson/generic/foo.h") []
      (amalgamateCore fsMissing [RelativeRoot.inc] "simdjson.h" "t" 64) = ["d1.h", "d2.h"] ∧
    runProj (fun st => includesOf st "simdjson/generic/dependencies.h") ["?"]
      (amalgamateCore fsMissing [RelativeRoot.inc] "simdjson.h" "t" 64) = [] ∧
    is_free_dependency "d1.h" = true ∧ is_free_dependency "d2.h" = true := by
  refine ⟨by decide, by decide, by decide, by decide, by decide⟩

/-- Witness for the amended C2: checking the two missing editor-only
includes of `simdjson/generic/foo.h` against an aggregator that includes
neither fails naming only `d1.h`. -/
theorem validator_first_missing_only_witness :
    checkEoIncludes fsMissing [RelativeRoot.inc] "simdjson/generic/dependencies.h" []
        "simdjson/generic/foo.h" ["d1.h", "d2.h"] [] (initState "t") =
      .error (Err.missingDependency "simdjson/generic/foo.h" "d1.h"
        "simdjson/generic/dependencies.h") := by
  exact validator_first_missing_only fsMissing [RelativeRoot.inc]
    "simdjson/generic/dependencies.h" [] "simdjson/generic/foo.h" ["d1.h", "d2.h"] []
    (initState "t")
    (by
      intro eo he q hq
      simp at he
      rcases he with rfl | rfl
      · rw [(by decide : free_dependency_file "d1.h" = none)] at hq
        cases hq
      · rw [(by decide : free_dependency_file "d2.h" = none)] at hq
        cases hq)
    "d1.h" (by decide)

theorem regFind_append_right {reg d : List (String × FileData)} {p : String}
    (h : regFind reg p = none) : regFind (reg ++ d) p = regFind d p := by
  unfold regFind at *
  rw [List.find?_append]
  cases hf : reg.find? (fun e => e.1 == p) <;> simp_all

/-- `registryGet` never changes any recorded editor-only include list: it
only appends fresh (empty) records. -/
theorem eoIncludesOf_registryGet {fs : FS} {roots : List RelativeRoot} {q : String}
    {st : AmState} {r : RelativeRoot} {st' : AmState}
    (h : registryGet fs roots q st = .ok (r, st')) (f : String) :
    eoIncludesOf st' f = eoIncludesOf st f := by
  unfold registryGet at h
  split at h
  · simp at h
    rw [← h.2]
  next hq =>
    split at h
    · simp at h
    next r2 hr =>
      simp at h
      rw [← h.2]
      unfold eoIncludesOf
      cases hf2 : regFind st.registry f with
      | some fd => rw [regFind_append_left hf2]
      | none =>
        rw [regFind_append_right hf2]
        unfold regFind
        by_cases he : q = f <;> simp [List.find?_cons, he, newFileData]

/-- `isFreeDependencyM` never changes any recorded editor-only include
list. -/
theorem eoIncludesOf_isFreeDependencyM {fs : FS} {roots : List RelativeRoot} {q : String}
    {st : AmState} {b : Bool} {st' : AmState}
    (h : isFreeDependencyM fs roots q st = .ok (b, st')) (f : String) :
    eoIncludesOf st' f = eoIncludesOf st f := by
  unfold isFreeDependencyM at h
  split at h
  · simp at h
    rw [← h.2]
  · split at h
    · simp at h
    next a r2 st2 hr =>
      simp at h
      rw [← h.2]
      exact eoIncludesOf_registryGet hr f

/-- `governedBy` never changes editor-only include lists, and a `true`
answer means the file's designated aggregator is exactly `agg`. -/
theorem governedBy_ok {fs : FS} {roots : List RelativeRoot} {f agg : String}
    {st : AmState} {g : Bool} {st' : AmState}
    (h : governedBy fs roots f agg st = .ok (g, st')) :
    (∀ x, eoIncludesOf st' x = eoIncludesOf st x) ∧
    (g = true → free_dependency_file f = some agg) := by
  unfold governedBy at h
  split at h
  next hn =>
    simp at h
    refine ⟨fun x => by rw [← h.2], fun hg => ?_⟩
    rw [hg] at h
    simp at h
  next q hq =>
    split at h
    · simp at h
    next r2 st2 hr =>
      simp at h
      refine ⟨fun x => by rw [← h.2]; exact eoIncludesOf_registryGet hr x, fun hg => ?_⟩
      rw [hq]
      have : q = agg := by
        have hb : (q == agg) = true := h.1.trans hg
        exact eq_of_beq hb
      rw [this]

/-- The two loop invariants of the inner validator loop: it never changes
editor-only include lists, and it retains every element of the extra set
that is not a free-dependency member of the scanned editor-only list. -/
theorem checkEo_props (fs : FS) (roots : List RelativeRoot) (aggP : String)
    (aggInc : List String) (fgov : String) :
    ∀ (eos extra : List String) (st : AmState) (extra' : List String) (st' : AmState),
      checkEoIncludes fs roots aggP aggInc fgov eos extra st = .ok (extra', st') →
      (∀ f, eoIncludesOf st' f = eoIncludesOf st f) ∧
      (∀ x ∈ extra, ¬(is_free_dependency x = true ∧ x ∈ eos) → x ∈ extra') := by
  intro eos
  induction eos with
  | nil =>
    intro extra st extra' st' h
    unfold checkEoIncludes at h
    simp at h
    exact ⟨fun f => by rw [h.2], fun x hx _ => h.1 ▸ hx⟩
  | cons eo rest ih =>
    intro extra st extra' st' h
    unfold checkEoIncludes at h
    split at h
    · exact absurd h (by simp)
    next eoFree st2 hfree =>
      have heo := isFreeDependencyM_ok hfree
      have hpres := fun f => eoIncludesOf_isFreeDependencyM hfree f
      cases hf : eoFree with
      | true =>
        rw [hf] at h
        have hfeo : is_free_dependency eo = true := by rw [← heo]; exact hf
        by_cases hmem : eo ∈ aggInc
        · simp only [if_pos rfl, if_pos hmem] at h
          obtain ⟨hp, hr⟩ := ih _ st2 extra' st' h
          refine ⟨fun f => (hp f).trans (hpres f), fun x hx hnot => ?_⟩
          have hxne : x ≠ eo := by
            intro he
            exact hnot ⟨by rw [he]; exact hfeo, by rw [he]; exact List.mem_cons_self eo rest⟩
          apply hr
          · by_cases hin : eo ∈ extra
            · simp only [if_pos hin]
              exact (List.mem_erase_of_ne hxne).mpr hx
            · simp only [if_neg hin]
              exact hx
          · intro hcon
            exact hnot ⟨hcon.1, List.mem_cons_of_mem eo hcon.2⟩
        · simp only [if_pos rfl, if_neg hmem] at h
          exact absurd h (by simp)
      | false =>
        rw [hf] at h
        simp only [Bool.false_eq_true, if_false] at h
        obtain ⟨hp, hr⟩ := ih _ st2 extra' st' h
        refine ⟨fun f => (hp f).trans (hpres f), fun x hx hnot => ?_⟩
        apply hr x hx
        intro hcon
        exact hnot ⟨hcon.1, List.mem_cons_of_mem eo hcon.2⟩

/-- Retention through the outer validator loop: an extra-set element that no
governed file names as an editor-only free dependency survives to the final
leftover set. -/
theorem validateGoverned_retain (fs : FS) (roots : List RelativeRoot) (aggP : String)
    (aggInc : List String) :
    ∀ (files extra : List String) (st : AmState) (extra' : List String) (st' : AmState),
      validateGoverned fs roots aggP aggInc files extra st = .ok (extra', st') →
      ∀ x ∈ extra,
        (∀ f, free_dependency_file f = some aggP →
          ¬(is_free_dependency x = true ∧ x ∈ eoIncludesOf st f)) →
        x ∈ extra' := by
  intro files
  induction files with
  | nil =>
    intro extra st extra' st' h x hx _
    unfold validateGoverned at h
    simp at h
    exact h.1 ▸ hx
  | cons f rest ih =>
    intro extra st extra' st' h x hx hyp
    unfold validateGoverned at h
    split at h
    · exact absurd h (by simp)
    next g st2 hgov =>
      obtain ⟨hgp, hgt⟩ := governedBy_ok hgov
      cases hg : g with
      | true =>
        rw [if_pos hg] at h
        split at h
        · exact absurd h (by simp)
        next extra2 st3 hchk =>
          obtain ⟨hp3, hret⟩ := checkEo_props fs roots aggP aggInc f _ _ st2 _ _ hchk
          apply ih _ st3 _ _ h x
          · apply hret x hx
            intro hcon
            exact hyp f (hgt hg) ⟨hcon.1, by rw [← hgp f]; exact hcon.2⟩
          · intro f2 hf2 hcon
            exact hyp f2 hf2 ⟨hcon.1, by rw [← hgp f2, ← hp3 f2]; exact hcon.2⟩
      | false =>
        rw [if_neg (by rw [hg]; exact Bool.false_ne_true)] at h
        apply ih _ st2 _ _ h x hx
        intro f2 hf2 hcon
        exact hyp f2 hf2 ⟨hcon.1, by rw [← hgp f2]; exact hcon.2⟩

/-- C9.  The completeness validator enforces exact correspondence, not a
mere superset: if the aggregator's direct includes contain a file `x` that
no governed file names as an editor-only free-dependency include, then
(provided the scan itself passes, i.e. `validateGoverned` returns a
leftover set) validation fails with an unnecessary-include error whose
reported set contains `x`. -/
theorem unnecessary_include_fatal (fs : FS) (roots : List RelativeRoot) (agg : String)
    (st : AmState) (x : String) (extra' : List String) (st' : AmState)
    (hagg : is_free_dependency_file agg = true)
    (hx : x ∈ includesOf st agg)
    (hreq : ∀ f, free_dependency_file f = some agg →
      ¬(is_free_dependency x = true ∧ x ∈ eoIncludesOf st f))
    (hrun : validateGoverned fs roots agg (includesOf st agg)
      (st.registry.map (fun e => e.1)) (includesOf st agg).dedup st = .ok (extra', st')) :
    x ∈ extra' ∧
    validate_free_dependency_file fs roots agg st =
      .error (Err.unnecessaryIncludes agg extra') := by
  have hx' : x ∈ extra' :=
    validateGoverned_retain fs roots agg (includesOf st agg) _ _ st _ _ hrun x
      (List.mem_dedup.mpr hx) hreq
  refine ⟨hx', ?_⟩
  have hne : extra'.isEmpty = false := by
    cases extra' with
    | nil => cases hx'
    | cons a l => rfl
  unfold validate_free_dependency_file
  rw [if_pos hagg]
  simp only [hrun, hne]
  simp

/-- A hand-built state over `fsExtra`: the aggregator is registered with one
recorded include, `extra.h`, which no governed file needs. -/
def stExtraReady : AmState :=
  { initState "t" with registry :=
      [("generic/dependencies.h",
        { newFileData RelativeRoot.inc with includes := ["extra.h"] }),
       ("extra.h", newFileData RelativeRoot.inc)] }

/-- Witness for C9: validating the aggregator of `stExtraReady` fails with
an unnecessary-include error reporting `extra.h`. -/
theorem unnecessary_include_fatal_witness :
    validate_free_dependency_file fsExtra [RelativeRoot.inc] "generic/dependencies.h"
        stExtraReady =
      .error (Err.unnecessaryIncludes "generic/dependencies.h" ["extra.h"]) := by
  have h := unnecessary_include_fatal fsExtra [RelativeRoot.inc] "generic/dependencies.h"
    stExtraReady "extra.h" ["extra.h"] stExtraReady (by decide) (by decide) ?hreq (by decide)
  · exact h.2
  case hreq =>
    intro f hf hcon
    have hmem := hcon.2
    unfold eoIncludesOf stExtraReady regFind at hmem
    by_cases h1 : ("generic/dependencies.h" : String) = f <;>
      by_cases h2 : ("extra.h" : String) = f <;>
        simp [List.find?_cons, h1, h2, newFileData, initState] at hmem

/-! ### The once-per-run invariant for free-dependency files (C1) -/

/-- Frame relation: the step left the emission events and the `seen once`
set (`found_includes`) untouched. -/
def EvFi (st st' : AmState) : Prop :=
  st'.events = st.events ∧ st'.found_includes = st.found_includes

theorem evfi_trans {a b c : AmState} (h1 : EvFi a b) (h2 : EvFi b c) : EvFi a c :=
  ⟨h2.1.trans h1.1, h2.2.trans h1.2⟩

theorem countExpand_append (evs d : List Event) (q : String) :
    countExpand (evs ++ d) q = countExpand evs q + countExpand d q := by
  unfold countExpand
  exact List.countP_append _ _ _

theorem countExpand_expandStart (p q : String) :
    countExpand [Event.expandStart p] q = if q = p then 1 else 0 := by
  unfold countExpand
  by_cases h : q = p
  · subst h
    simp [List.countP_cons]
  · have : (Event.expandStart p == Event.expandStart q) = false := by
      simp [Ne.symm h]
    simp [List.countP_cons, this, h]

theorem countExpand_skippedDup (p q : String) :
    countExpand [Event.skippedDup p] q = 0 := by
  unfold countExpand
  simp [List.countP_cons]

/-- The once-per-run invariant: every free-dependency file has been expanded
exactly once if it is in `found_includes` and never otherwise. -/
def InvOnce (st : AmState) : Prop :=
  ∀ q, is_free_dependency q = true →
    countExpand st.events q = (if q ∈ st.found_includes then 1 else 0)

/-- The transient precondition holding between `maybe_write_file` adding a
free-dependency file `p` to `found_includes` and `write_file` emitting its
`begin file` marker. -/
def JOnce (p : String) (st : AmState) : Prop :=
  p ∈ st.found_includes ∧ countExpand st.events p = 0 ∧
  ∀ q, is_free_dependency q = true → q ≠ p →
    countExpand st.events q = (if q ∈ st.found_includes then 1 else 0)

/-- Precondition of one writer step, by call shape. -/
def PreOnce : Call → AmState → Prop
  | Call.write p, st => if is_free_dependency p = true then JOnce p st else InvOnce st
  | Call.expand p _, st => if is_free_dependency p = true then JOnce p st else InvOnce st
  | _, st => InvOnce st

theorem invOnce_evfi {st st' : AmState} (h : EvFi st st') (hi : InvOnce st) : InvOnce st' := by
  intro q hq
  rw [h.1, h.2]
  exact hi q hq

theorem jOnce_evfi {p : String} {st st' : AmState} (h : EvFi st st') (hj : JOnce p st) :
    JOnce p st' := by
  refine ⟨h.2 ▸ hj.1, h.1 ▸ hj.2.1, fun q hq hne => ?_⟩
  rw [h.1, h.2]
  exact hj.2.2 q hq hne

theorem registryGet_evfi {fs : FS} {roots : List RelativeRoot} {q : String}
    {st : AmState} {r : RelativeRoot} {st' : AmState}
    (h : registryGet fs roots q st = .ok (r, st')) : EvFi st st' := by
  unfold registryGet at h
  split at h
  · simp at h
    rw [← h.2]
    exact ⟨rfl, rfl⟩
  · split at h
    · simp at h
    · simp at h
      rw [← h.2]
      exact ⟨rfl, rfl⟩

theorem isFreeDependencyM_evfi {fs : FS} {roots : List RelativeRoot} {q : String}
    {st : AmState} {b : Bool} {st' : AmState}
    (h : isFreeDependencyM fs roots q st = .ok (b, st')) : EvFi st st' := by
  unfold isFreeDependencyM at h
  split at h
  · simp at h
    rw [← h.2]
    exact ⟨rfl, rfl⟩
  · split at h
    · simp at h
    next r2 st2 hr =>
      simp at h
      rw [← h.2]
      exact registryGet_evfi hr

theorem isAmalgamatedM_evfi {fs : FS} {roots : List RelativeRoot} {q : String}
    {st : AmState} {b : Bool} {st' : AmState}
    (h : isAmalgamatedM fs roots q st = .ok (b, st')) : EvFi st st' := by
  unfold isAmalgamatedM at h
  split at h
  · simp at h
  next b2 st2 hf =>
    simp at h
    rw [← h.2]
    exact isFreeDependencyM_evfi hf

/-- `isAmalgamatedM` returns the negation of the path classifier. -/
theorem isAmalgamatedM_ok {fs : FS} {roots : List RelativeRoot} {p : String}
    {st : AmState} {b : Bool} {st' : AmState}
    (h : isAmalgamatedM fs roots p st = .ok (b, st')) : b = !(is_free_dependency p) := by
  unfold isAmalgamatedM at h
  split at h
  · simp at h
  next b2 st2 hf =>
    simp at h
    have h2 : (!b) = is_free_dependency p := by
      rw [← h.1]
      exact isFreeDependencyM_ok hf
    rw [← h2, Bool.not_not]

theorem file_to_str_evfi {fs : FS} {roots : List RelativeRoot} {p : String}
    {st : AmState} {s : String} {st' : AmState}
    (h : file_to_str fs roots p st = .ok (s, st')) : EvFi st st' := by
  unfold file_to_str at h
  split at h
  · split at h
    · simp at h
    next b st2 ha =>
      have he := isAmalgamatedM_evfi ha
      split at h
      · split at h
        · simp at h
          rw [← h.2]
          exact he
        · simp at h
      · simp at h
        rw [← h.2]
        exact he
  · simp at h
    rw [← h.2]
    exact ⟨rfl, rfl⟩

theorem add_include_evfi {fs : FS} {roots : List RelativeRoot} {frm tgt : String}
    {st st' : AmState} (h : add_include fs roots frm tgt st = .ok st') : EvFi st st' := by
  unfold add_include at h
  split at h
  · simp at h
  next b st1 h1 =>
    have e1 := isFreeDependencyM_evfi h1
    split at h
    · split at h
      · simp at h
      next b2 st2 h2 =>
        have e2 := isFreeDependencyM_evfi h2
        split at h
        · simp at h
          rw [← h]
          exact evfi_trans (evfi_trans e1 e2)
            (⟨rfl, rfl⟩ : EvFi st2 (recordInclude st2 frm tgt))
        · split at h
          · simp at h
          next r st3 h3 =>
            have e3 := registryGet_evfi h3
            split at h
            · simp at h
              rw [← h]
              exact evfi_trans (evfi_trans (evfi_trans e1 e2) e3)
                (⟨rfl, rfl⟩ : EvFi st3 (recordInclude st3 frm tgt))
            · simp at h
    · split at h
      · simp at h
      next b2 st2 h2 =>
        have e2 := isFreeDependencyM_evfi h2
        split at h
        · simp at h
        · simp at h
          rw [← h]
          exact evfi_trans (evfi_trans e1 e2)
            (⟨rfl, rfl⟩ : EvFi st2 (recordInclude st2 frm tgt))

theorem add_editor_only_include_evfi {fs : FS} {roots : List RelativeRoot} {frm tgt : String}
    {st st' : AmState} (h : add_editor_only_include fs roots frm tgt st = .ok st') :
    EvFi st st' := by
  unfold add_editor_only_include at h
  split at h
  · simp at h
  next b st1 h1 =>
    have e1 := isAmalgamatedM_evfi h1
    split at h
    · simp at h
    · split at h
      · simp at h
      next b2 st2 h2 =>
        have e2 := isFreeDependencyM_evfi h2
        split at h
        · split at h
          · simp at h
          · split at h
            · simp at h
            next r st3 h3 =>
              simp at h
              rw [← h]
              exact evfi_trans (evfi_trans e1 e2)
                (evfi_trans (registryGet_evfi h3)
                  (⟨rfl, rfl⟩ : EvFi st3 (recordEditorOnlyInclude st3 frm tgt)))
        · simp at h
          rw [← h]
          exact evfi_trans (evfi_trans e1 e2)
            (⟨rfl, rfl⟩ : EvFi st2 (recordEditorOnlyInclude st2 frm tgt))

theorem ifndefStep_evfi {fs : FS} {roots : List RelativeRoot} {p line : String}
    {st st' : AmState} (h : ifndefStep fs roots p line st = .ok st') : EvFi st st' := by
  unfold ifndefStep at h
  split at h
  · split at h
    · simp at h
    next b st1 h1 =>
      have e1 := isAmalgamatedM_evfi h1
      split at h
      · simp at h
      · split at h
        · simp at h
        · split at h
          · simp at h
          · simp at h
            rw [← h]
            exact e1
  · simp at h
    rw [← h]
    exact ⟨rfl, rfl⟩

theorem editorRegionLine2_evfi {fs : FS} {roots : List RelativeRoot} {p line : String}
    {endIgnore : Bool} {st st' : AmState}
    (h : editorRegionLine2 fs roots p line endIgnore st = .ok st') : EvFi st st' := by
  unfold editorRegionLine2 at h
  split at h
  next inc hinc =>
    split at h
    · simp at h
    next r st2 h2 =>
      split at h
      · simp at h
      next st3 h3 =>
        have e23 := evfi_trans (registryGet_evfi h2) (add_editor_only_include_evfi h3)
        split at h
        · simp at h
          rw [← h]
          exact evfi_trans e23 (⟨rfl, rfl⟩ :
            EvFi st3 { st3 with editor_only_region := false })
        · simp at h
          rw [← h]
          exact e23
  next hninc =>
    split at h
    · simp at h
      rw [← h]
      exact (⟨rfl, rfl⟩ : EvFi st { st with editor_only_region := false })
    · simp at h
      rw [← h]
      exact ⟨rfl, rfl⟩

theorem editorRegionLine_evfi {fs : FS} {roots : List RelativeRoot} {p line : String}
    {endIgnore : Bool} {st st' : AmState}
    (h : editorRegionLine fs roots p line endIgnore st = .ok st') : EvFi st st' := by
  unfold editorRegionLine at h
  exact evfi_trans (⟨rfl, rfl⟩ :
    EvFi st { st with output :=
      st.output ++ ["/* amalgamation skipped (editor-only): " ++ line ++ " */"] })
    (editorRegionLine2_evfi h)

theorem implChain_evfi {p line : String} {st : AmState} {line2 : String} {st' : AmState}
    (h : implChain p line st = .ok (line2, st')) : EvFi st st' := by
  unfold implChain at h
  split at h
  · simp at h
    rw [← h.2]
    exact ⟨rfl, rfl⟩
  · split at h
    · simp at h
      rw [← h.2]
      exact ⟨rfl, rfl⟩
    · split at h
      · split at h
        · simp at h
        · simp at h
          rw [← h.2]
          exact ⟨rfl, rfl⟩
      · simp at h
        rw [← h.2]
        exact ⟨rfl, rfl⟩

theorem amalgChain_evfi {fs : FS} {roots : List RelativeRoot} {p line : String}
    {st st' : AmState} (h : amalgChain fs roots p line st = .ok st') : EvFi st st' := by
  unfold amalgChain at h
  split at h
  · split at h
    · simp at h
    next b st1 h1 =>
      have e1 := isAmalgamatedM_evfi h1
      split at h
      · simp at h
      · split at h
        · simp at h
        · simp at h
          rw [← h]
          exact e1
  · split at h
    · split at h
      · simp at h
      next b st1 h1 =>
        have e1 := isAmalgamatedM_evfi h1
        split at h
        · simp at h
        · split at h
          · simp at h
          · simp at h
            rw [← h]
            exact e1
    · simp at h
      rw [← h]
      exact ⟨rfl, rfl⟩

theorem handleRestOfLine_evfi {fs : FS} {roots : List RelativeRoot} {p line : String}
    {st st' : AmState} (h : handleRestOfLine fs roots p line st = .ok st') : EvFi st st' := by
  unfold handleRestOfLine at h
  split at h
  · simp at h
  next line2 st1 h1 =>
    split at h
    · simp at h
    next st2 h2 =>
      simp at h
      rw [← h]
      exact evfi_trans (evfi_trans (implChain_evfi h1) (amalgChain_evfi h2))
        (⟨rfl, rfl⟩ : EvFi st2 { st2 with output := st2.output ++ [line2] })

theorem finishWrite_evfi {p : String} {st st' : AmState}
    (h : finishWrite p st = .ok st') : EvFi st st' := by
  unfold finishWrite at h
  simp at h
  rw [← h]
  exact ⟨rfl, rfl⟩

theorem writeFileExit2_evfi {p : String} {st st' : AmState}
    (h : writeFileExit2 p st = .ok st') : EvFi st st' := by
  unfold writeFileExit2 at h
  split at h
  · split at h
    · simp at h
    · exact evfi_trans
        (⟨rfl, rfl⟩ : EvFi st { st with impl := some "SIMDJSON_BUILTIN_IMPLEMENTATION" })
        (finishWrite_evfi h)
  · split at h
    · split at h
      · simp at h
      · split at h
        · simp at h
        · exact evfi_trans (⟨rfl, rfl⟩ : EvFi st { st with impl := none })
            (finishWrite_evfi h)
    · exact finishWrite_evfi h

theorem writeFileExit_evfi {fs : FS} {roots : List RelativeRoot} {p : String}
    {st st' : AmState} (h : writeFileExit fs roots p st = .ok st') : EvFi st st' := by
  unfold writeFileExit at h
  split at h
  · simp at h
  · split at h
    · simp at h
    next fstr st1 h1 =>
      exact evfi_trans (evfi_trans (file_to_str_evfi h1)
        (⟨rfl, rfl⟩ : EvFi st1 { st1 with output := st1.output ++ ["/* end file " ++ fstr ++ " */"] }))
        (writeFileExit2_evfi h)

theorem writeFileBody2_inv {fs : FS} {roots : List RelativeRoot}
    {rec : Call → AmState → Except Err AmState} {p : String} {st st' : AmState}
    (Hrec : ∀ c s s', rec c s = .ok s' → PreOnce c s → InvOnce s')
    (h : writeFileBody2 fs roots rec p st = .ok st') (hi : InvOnce st) : InvOnce st' := by
  unfold writeFileBody2 at h
  split at h
  · simp at h
  · split at h
    · simp at h
    next root st2 h2 =>
      split at h
      · simp at h
      next ls hls =>
        split at h
        · simp at h
        next st3 h3 =>
          exact invOnce_evfi (writeFileExit_evfi h)
            (Hrec _ _ _ h3 (show PreOnce (Call.lines p ls) st2 from
              invOnce_evfi (registryGet_evfi h2) hi))

theorem writeFileBody_inv {fs : FS} {roots : List RelativeRoot}
    {rec : Call → AmState → Except Err AmState} {p : String} {st st' : AmState}
    (Hrec : ∀ c s s', rec c s = .ok s' → PreOnce c s → InvOnce s')
    (h : writeFileBody fs roots rec p st = .ok st')
    (hpre : if is_free_dependency p = true then JOnce p st else InvOnce st) :
    InvOnce st' := by
  unfold writeFileBody at h
  split at h
  · simp at h
  next fstr st2 h2 =>
    have e2 := file_to_str_evfi h2
    apply writeFileBody2_inv Hrec h
    by_cases hf : is_free_dependency p = true
    · rw [if_pos hf] at hpre
      have hj : JOnce p st2 := jOnce_evfi e2 hpre
      intro q hq
      show countExpand (st2.events ++ [Event.expandStart p]) q =
        if q ∈ st2.found_includes then 1 else 0
      rw [countExpand_append, countExpand_expandStart]
      by_cases hqp : q = p
      · subst hqp
        rw [hj.2.1]
        simp [hj.1]
      · rw [hj.2.2 q hq hqp, if_neg hqp]
        simp
    · rw [if_neg hf] at hpre
      have hi2 : InvOnce st2 := invOnce_evfi e2 hpre
      intro q hq
      show countExpand (st2.events ++ [Event.expandStart p]) q =
        if q ∈ st2.found_includes then 1 else 0
      have hqp : q ≠ p := fun he => hf (he ▸ hq)
      rw [countExpand_append, countExpand_expandStart, if_neg hqp]
      rw [hi2 q hq]
      simp

/-- One writer step preserves the once-per-run invariant for
free-dependency files, by induction on the fuel. -/
theorem step_invOnce (fs : FS) (roots : List RelativeRoot) :
    ∀ (fuel : Nat) (c : Call) (st st' : AmState),
      step fs roots fuel c st = .ok st' → PreOnce c st → InvOnce st' := by
  intro fuel
  induction fuel with
  | zero =>
    intro c st st' h hpre
    exact absurd h (by simp [step])
  | succ fuel ih =>
    intro c st st' h hpre
    have hstep : step fs roots (fuel + 1) c st = stepF fs roots (step fs roots fuel) c st := rfl
    rw [hstep] at h
    cases c with
    | maybeWrite p incf el =>
      simp only [stepF] at h
      split at h
      · simp at h
      next amalg st2 hAm =>
        have hb := isAmalgamatedM_ok hAm
        have hinv2 : InvOnce st2 := invOnce_evfi (isAmalgamatedM_evfi hAm) hpre
        by_cases ha : amalg = true
        · rw [if_pos ha] at h
          have hfree : is_free_dependency p = false := by
            rcases Bool.eq_false_or_eq_true (is_free_dependency p) with hfd | hfd
            · rw [ha, hfd] at hb
              simp at hb
            · exact hfd
          by_cases hg : is_generic p = true
          · rw [if_pos hg] at h
            by_cases hseen : genericSeen st2.found_generic_includes p st2.impl = true
            · rw [if_pos hseen] at h
              simp at h
            · rw [if_neg hseen] at h
              split at h
              · simp at h
              next v hv =>
                apply ih _ _ _ h
                simp only [PreOnce, hfree, Bool.false_eq_true, if_false]
                exact invOnce_evfi ⟨rfl, rfl⟩ hinv2
          · rw [if_neg hg] at h
            apply ih _ _ _ h
            simp only [PreOnce, hfree, Bool.false_eq_true, if_false]
            by_cases hm : p ∈ st2.found_includes_per_amalgamation
            · rw [if_pos hm]
              exact hinv2
            · rw [if_neg hm]
              exact invOnce_evfi ⟨rfl, rfl⟩ hinv2
        · rw [if_neg ha] at h
          have ha2 : amalg = false := by
            rcases Bool.eq_false_or_eq_true amalg with hx | hx
            · exact absurd hx ha
            · exact hx
          have hfree : is_free_dependency p = true := by
            rcases Bool.eq_false_or_eq_true (is_free_dependency p) with hfd | hfd
            · exact hfd
            · rw [ha2, hfd] at hb
              simp at hb
          by_cases hm : p ∈ st2.found_includes
          · rw [if_pos hm] at h
            simp at h
            rw [← h]
            intro q hq
            show countExpand (st2.events ++ [Event.skippedDup p]) q =
              if q ∈ st2.found_includes then 1 else 0
            rw [countExpand_append, countExpand_skippedDup]
            have hx := hinv2 q hq
            simpa using hx
          · rw [if_neg hm] at h
            apply ih _ _ _ h
            simp only [PreOnce, hfree, if_pos]
            refine ⟨?_, ?_, ?_⟩
            · show p ∈ st2.found_includes ++ [p]
              simp
            · show countExpand st2.events p = 0
              have hx := hinv2 p hfree
              rw [if_neg hm] at hx
              exact hx
            · intro q hq hqp
              show countExpand st2.events q = if q ∈ st2.found_includes ++ [p] then 1 else 0
              have hmem : (q ∈ st2.found_includes ++ [p]) = (q ∈ st2.found_includes) := by
                simp [List.mem_append, hqp]
              simp only [hmem]
              exact hinv2 q hq
    | expand p el =>
      simp only [stepF] at h
      split at h
      · simp at h
      next fstr st2 h2 =>
        have e2 := file_to_str_evfi h2
        apply ih _ _ _ h
        simp only [PreOnce] at hpre ⊢
        by_cases hf : is_free_dependency p = true
        · rw [if_pos hf] at hpre ⊢
          exact jOnce_evfi ⟨rfl, rfl⟩ (jOnce_evfi e2 hpre)
        · rw [if_neg hf] at hpre ⊢
          exact invOnce_evfi ⟨rfl, rfl⟩ (invOnce_evfi e2 hpre)
    | write p =>
      simp only [stepF] at h
      by_cases hstk : p ∈ st.include_stack
      · rw [if_pos hstk] at h
        simp at h
      · rw [if_neg hstk] at h
        apply writeFileBody_inv (fun c s s' hc hp => ih c s s' hc hp) h
        simp only [PreOnce] at hpre
        by_cases hf : is_free_dependency p = true
        · rw [if_pos hf] at hpre ⊢
          exact jOnce_evfi ⟨rfl, rfl⟩ hpre
        · rw [if_neg hf] at hpre ⊢
          exact invOnce_evfi ⟨rfl, rfl⟩ hpre
    | lines p ls =>
      cases ls with
      | nil =>
        simp only [stepF] at h
        simp at h
        rw [← h]
        exact hpre
      | cons l rest =>
        simp only [stepF] at h
        split at h
        · simp at h
        next st2 h2 =>
          exact ih _ _ _ h (show PreOnce (Call.lines p rest) st2 from ih _ _ _ h2 hpre)
    | line p l =>
      simp only [stepF] at h
      split at h
      · simp at h
      next st2 h2 =>
        have hi2 : InvOnce st2 := invOnce_evfi (ifndefStep_evfi h2) hpre
        by_cases her : st2.editor_only_region = true
        · rw [if_pos her] at h
          exact invOnce_evfi (editorRegionLine_evfi h) hi2
        · rw [if_neg her] at h
          by_cases hend : matchEndifAmalg l = true
          · rw [if_pos hend] at h
            simp at h
          · rw [if_neg hend] at h
            split at h
            next inc hinc =>
              split at h
              · simp at h
              next r st3 h3 =>
                split at h
                · simp at h
                next st4 h4 =>
                  apply ih _ _ _ h
                  show PreOnce (Call.maybeWrite inc (some p) l) st4
                  exact invOnce_evfi (add_include_evfi h4)
                    (invOnce_evfi (registryGet_evfi h3) hi2)
            next hninc =>
              exact invOnce_evfi (handleRestOfLine_evfi h) hi2

theorem governedBy_evfi {fs : FS} {roots : List RelativeRoot} {f agg : String}
    {st : AmState} {b : Bool} {st' : AmState}
    (h : governedBy fs roots f agg st = .ok (b, st')) : EvFi st st' := by
  unfold governedBy at h
  split at h
  · simp at h
    rw [← h.2]
    exact ⟨rfl, rfl⟩
  next q hq =>
    split at h
    · simp at h
    next r st2 h2 =>
      simp at h
      rw [← h.2]
      exact registryGet_evfi h2

theorem checkEoIncludes_evfi {fs : FS} {roots : List RelativeRoot} {aggP : String}
    {aggInc : List String} {f : String} :
    ∀ (eos extra : List String) (st : AmState) (extra' : List String) (st' : AmState),
      checkEoIncludes fs roots aggP aggInc f eos extra st = .ok (extra', st') →
      EvFi st st' := by
  intro eos
  induction eos with
  | nil =>
    intro extra st extra' st' h
    simp only [checkEoIncludes] at h
    simp at h
    rw [← h.2]
    exact ⟨rfl, rfl⟩
  | cons eo rest ih =>
    intro extra st extra' st' h
    simp only [checkEoIncludes] at h
    split at h
    · simp at h
    next b st2 h2 =>
      have e2 := isFreeDependencyM_evfi h2
      by_cases hb : b = true
      · rw [if_pos hb] at h
        by_cases hmem : eo ∈ aggInc
        · rw [if_pos hmem] at h
          exact evfi_trans e2 (ih _ _ _ _ h)
        · rw [if_neg hmem] at h
          simp at h
      · rw [if_neg hb] at h
        exact evfi_trans e2 (ih _ _ _ _ h)

theorem validateGoverned_evfi {fs : FS} {roots : List RelativeRoot} {aggP : String}
    {aggInc : List String} :
    ∀ (ps extra : List String) (st : AmState) (extra' : List String) (st' : AmState),
      validateGoverned fs roots aggP aggInc ps extra st = .ok (extra', st') →
      EvFi st st' := by
  intro ps
  induction ps with
  | nil =>
    intro extra st extra' st' h
    simp only [validateGoverned] at h
    simp at h
    rw [← h.2]
    exact ⟨rfl, rfl⟩
  | cons f rest ih =>
    intro extra st extra' st' h
    simp only [validateGoverned] at h
    split at h
    · simp at h
    next isGov st2 h2 =>
      have e2 := governedBy_evfi h2
      by_cases hg : isGov = true
      · rw [if_pos hg] at h
        split at h
        · simp at h
        next extra2 st3 h3 =>
          exact evfi_trans e2
            (evfi_trans (checkEoIncludes_evfi _ _ _ _ _ h3) (ih _ _ _ _ h))
      · rw [if_neg hg] at h
        exact evfi_trans e2 (ih _ _ _ _ h)

theorem validate_free_dependency_file_evfi {fs : FS} {roots : List RelativeRoot}
    {aggP : String} {st st' : AmState}
    (h : validate_free_dependency_file fs roots aggP st = .ok st') : EvFi st st' := by
  have hd : validate_free_dependency_file fs roots aggP st =
      (if is_free_dependency_file aggP then
        match validateGoverned fs roots aggP (includesOf st aggP)
            (st.registry.map (fun e => e.1)) ((includesOf st aggP).dedup) st with
        | .error e => .error e
        | .ok (extra, st2) =>
          if extra.isEmpty then .ok st2 else .error (Err.unnecessaryIncludes aggP extra)
      else .ok st) := rfl
  rw [hd] at h
  by_cases hagg : is_free_dependency_file aggP = true
  · rw [if_pos hagg] at h
    split at h
    · simp at h
    next extra st2 h2 =>
      by_cases he : extra.isEmpty = true
      · rw [if_pos he] at h
        simp at h
        rw [← h]
        exact validateGoverned_evfi _ _ _ _ _ h2
      · rw [if_neg he] at h
        simp at h
  · rw [if_neg hagg] at h
    simp at h
    rw [← h]
    exact ⟨rfl, rfl⟩

theorem validateAll_evfi {fs : FS} {roots : List RelativeRoot} :
    ∀ (ps : List String) (st st' : AmState),
      validateAll fs roots ps st = .ok st' → EvFi st st' := by
  intro ps
  induction ps with
  | nil =>
    intro st st' h
    simp only [validateAll] at h
    simp at h
    rw [← h]
    exact ⟨rfl, rfl⟩
  | cons p rest ih =>
    intro st st' h
    simp only [validateAll] at h
    split at h
    · simp at h
    next st2 h2 =>
      exact evfi_trans (validate_free_dependency_file_evfi h2) (ih _ _ h)

/-- The fresh run state satisfies the once-per-run invariant vacuously. -/
theorem initState_invOnce (ts : String) : InvOnce (initState ts) := by
  intro q hq
  simp [initState, countExpand]

/-- Every successful complete run satisfies the once-per-run invariant:
the number of `begin file` markers of a free-dependency file equals 1 if it
is in `found_includes` and 0 otherwise. -/
theorem runAmalgamate_invOnce {fs : FS} {roots : List RelativeRoot} {file ts : String}
    {fuel : Nat} {st : AmState}
    (h : runAmalgamate fs roots file ts fuel = .ok st) : InvOnce st := by
  unfold runAmalgamate at h
  split at h
  · simp at h
  next st1 h1 =>
    have hinv1 : InvOnce st1 := by
      unfold amalgamateCore at h1
      split at h1
      · simp at h1
      next r st0 h0 =>
        exact step_invOnce fs roots fuel _ _ _ h1
          (show PreOnce (Call.maybeWrite file none "") st0 from
            invOnce_evfi (registryGet_evfi h0) (initState_invOnce ts))
    exact invOnce_evfi (validateAll_evfi _ _ _ h) hinv1

/-- Witness for C6: the first conjunct applied to a concrete state whose
include stack already contains the file being written. -/
theorem cyclic_include_fails_witness :
    writeFile fsCycle [RelativeRoot.inc] 1 "a.h"
        { initState "t" with include_stack := ["a.h"] } =
      .error (Err.cyclicInclude ["a.h"] "a.h") := by
  have h := cyclic_include_fails.1 fsCycle [RelativeRoot.inc] 0 "a.h"
    { initState "t" with include_stack := ["a.h"] } (by decide)
  simpa using h

/-- Counterexample to C1 as stated: in `fsDup` the non-generic file
`simdjson/arm64/bar.h` is included twice and the run completes, yet its
`begin file` marker is emitted twice and no `skipped duplicate` annotation
is ever emitted for it.  The claim's dedup behaviour holds only for
non-amalgamated (free-dependency) files; amalgamated non-generic files are
re-expanded on every inclusion. -/
theorem duplicate_include_skip_counterexample :
    is_generic "simdjson/arm64/bar.h" = false ∧
    runOk (runAmalgamate fsDup [RelativeRoot.inc] "simdjson/arm64/foo.h" "t" 64) = true ∧
    countExpand (runProj (fun st => st.events) []
        (runAmalgamate fsDup [RelativeRoot.inc] "simdjson/arm64/foo.h" "t" 64))
      "simdjson/arm64/bar.h" = 2 ∧
    countSkipped (runProj (fun st => st.events) []
        (runAmalgamate fsDup [RelativeRoot.inc] "simdjson/arm64/foo.h" "t" 64))
      "simdjson/arm64/bar.h" = 0 := by
  refine ⟨by decide, by decide, by decide, by decide⟩

/-- C1 as amended: the once-per-run deduplication applies to the
non-amalgamated (free-dependency) files.  In every successful complete run
each free-dependency file's `begin file` marker appears at most once in the
output stream; and whenever `maybe_write_file` reaches a non-amalgamated
target already in `found_includes`, it emits the `skipped duplicate`
annotation in place of the file's content and does not expand it again. -/
theorem duplicate_include_skip (fs : FS) (roots : List RelativeRoot)
    (file ts : String) (fuel : Nat) (st : AmState)
    (h : runAmalgamate fs roots file ts fuel = .ok st) :
    (∀ p, is_free_dependency p = true → countExpand st.events p ≤ 1) ∧
    (∀ (fuel2 : Nat) (p : String) (incf : Option String) (el : String)
       (st1 st2 : AmState),
       isAmalgamatedM fs roots p st1 = .ok (false, st2) →
       p ∈ st2.found_includes →
       maybeWriteFile fs roots (fuel2 + 1) p incf el st1 =
         .ok { st2 with
               output := st2.output ++ ["/* skipped duplicate " ++ el ++ " */"],
               events := st2.events ++ [Event.skippedDup p] }) := by
  constructor
  · intro p hp
    rw [runAmalgamate_invOnce h p hp]
    split <;> simp
  · intro fuel2 p incf el st1 st2 hAm hmem
    unfold maybeWriteFile step stepF
    simp [hAm, hmem]

/-- Witness for the amended C1: in the completed `fsGeneric` run the
free-dependency aggregator `generic/dependencies.h` is included twice but
its marker appears at most once. -/
theorem duplicate_include_skip_witness :
    countExpand (runProj (fun st => st.events) []
        (runAmalgamate fsGeneric [RelativeRoot.inc] "simdjson.h" "t" 64))
      "generic/dependencies.h" ≤ 1 := by
  cases hr : runAmalgamate fsGeneric [RelativeRoot.inc] "simdjson.h" "t" 64 with
  | error e =>
    have hok : runOk (runAmalgamate fsGeneric [RelativeRoot.inc] "simdjson.h" "t" 64) =
        true := by decide
    rw [hr] at hok
    simp [runOk] at hok
  | ok stG =>
    exact (duplicate_include_skip fsGeneric [RelativeRoot.inc] "simdjson.h" "t" 64 stG
      hr).1 "generic/dependencies.h" (by decide)

end Amalgamate
